import Mathlib

/-!
Verification of the qs query-string codec (github.com/dmji/qs).

This file shallowly embeds the core marshaling/unmarshaling engine of the
qs Go package: the field-tag option model and parser, the primitive
string converters (models of the Go strconv routines they delegate to),
the entry-level unmarshalers (pointer, slice, primitive), the values-level
struct/map unmarshalers and marshalers, and the factory cache.

Go-specific conventions used throughout the embedding:
* a Go `[]string` that may be nil is `Option (List String)` (`none` = nil);
* `url.Values` is an association list with map-like insert/lookup;
* Go errors are the `QsError` inductive; the dynamic type test performed by
  `IsRequiredFieldError` corresponds to matching the `req` constructor;
* functions that Go generates with go-stringer (the enum `FromString` /
  `String` functions) are not present in the source tree and are modelled
  from the spec's tag grammar (lowercase token names), marked below.
-/

namespace qs

/-- MarshalPresence enum, from marshal_enum.go. -/
inductive MarshalPresence where
| MPUnspecified
| KeepEmpty
| OmitEmpty
deriving DecidableEq, Repr

/-- UnmarshalPresence enum, from the unmarshal enum source (unnamed/part_009). -/
inductive UnmarshalPresence where
| UPUnspecified
| Opt
| Nil
| Req
deriving DecidableEq, Repr

/-- Modelled from the spec: the slice merge-mode enum. Its const block is a
generated file absent from the source tree; the constant names
`UnmarshalSliceValuesUPUnspecified`, `...OverrideOld` and `...KeepOld` are
attested by their uses in unmarshal_tag_options.go and unmarshal_strings.go. -/
inductive UnmarshalSliceValues where
| UPUnspecified
| OverrideOld
| KeepOld
deriving DecidableEq, Repr

/-- Modelled from the spec: the slice unexpected-value policy enum. Its const
block is a generated file absent from the source tree; `...BreakWithError` is
attested by unmarshal_strings.go, and the spec's "skip-bad-values" mode is the
remaining non-unspecified value (named `Skip` here). -/
inductive UnmarshalSliceUnexpectedValue where
| UPUnspecified
| BreakWithError
| Skip
deriving DecidableEq, Repr

/-- OptionSliceSeparator enum, from unnamed/part_004. -/
inductive OptionSliceSeparator where
| Unspecified
| SeparatorNone
| Comma
| Semicolon
| Space
deriving DecidableEq, Repr

/-- Modelled from the spec: go-stringer generated `String()` rendering for
`MarshalPresence` (lowercase constant names, type-name prefix trimmed). -/
def MarshalPresence.render : MarshalPresence → String
| .MPUnspecified => "mpunspecified"
| .KeepEmpty => "keepempty"
| .OmitEmpty => "omitempty"

/-- Modelled from the spec: generated `MarshalPresenceFromString`; accepts
exactly the tag tokens `keepempty` and `omitempty` (case-sensitive). -/
def MarshalPresenceFromString (s : String) : Option MarshalPresence :=
if s = "keepempty" then some .KeepEmpty
else if s = "omitempty" then some .OmitEmpty
else none

/-- Modelled from the spec: generated `String()` rendering for
`UnmarshalPresence`. -/
def UnmarshalPresence.render : UnmarshalPresence → String
| .UPUnspecified => "upunspecified"
| .Opt => "opt"
| .Nil => "nil"
| .Req => "req"

/-- Modelled from the spec: generated `UnmarshalPresenceFromString`; accepts
exactly the tag tokens `opt`, `nil` and `req` (case-sensitive, as exercised
by the tag-parser tests in unnamed/part_016). -/
def UnmarshalPresenceFromString (s : String) : Option UnmarshalPresence :=
if s = "opt" then some .Opt
else if s = "nil" then some .Nil
else if s = "req" then some .Req
else none

/-- Modelled from the spec: generated `String()` rendering for
`UnmarshalSliceValues`. -/
def UnmarshalSliceValues.render : UnmarshalSliceValues → String
| .UPUnspecified => "upunspecified"
| .OverrideOld => "overrideold"
| .KeepOld => "keepold"

/-- Modelled from the spec: generated `UnmarshalSliceValuesFromString`
(lowercase constant names with the type-name prefix trimmed). -/
def UnmarshalSliceValuesFromString (s : String) : Option UnmarshalSliceValues :=
if s = "overrideold" then some .OverrideOld
else if s = "keepold" then some .KeepOld
else none

/-- Modelled from the spec: generated `String()` rendering for
`UnmarshalSliceUnexpectedValue`. -/
def UnmarshalSliceUnexpectedValue.render : UnmarshalSliceUnexpectedValue → String
| .UPUnspecified => "upunspecified"
| .BreakWithError => "breakwitherror"
| .Skip => "skip"

/-- Modelled from the spec: generated `UnmarshalSliceUnexpectedValueFromString`. -/
def UnmarshalSliceUnexpectedValueFromString (s : String) :
    Option UnmarshalSliceUnexpectedValue :=
if s = "breakwitherror" then some .BreakWithError
else if s = "skip" then some .Skip
else none

/-- Modelled from the spec: generated `String()` rendering for
`OptionSliceSeparator`. -/
def OptionSliceSeparator.render : OptionSliceSeparator → String
| .Unspecified => "unspecified"
| .SeparatorNone => "none"
| .Comma => "comma"
| .Semicolon => "semicolon"
| .Space => "space"

/-- Modelled from the spec: generated `OptionSliceSeparatorFromString`;
the separator tokens are given by the spec's tag grammar
(none / comma / semicolon / space). -/
def OptionSliceSeparatorFromString (s : String) : Option OptionSliceSeparator :=
if s = "none" then some .SeparatorNone
else if s = "comma" then some .Comma
else if s = "semicolon" then some .Semicolon
else if s = "space" then some .Space
else none

/-- The `fmtOptionNotUniqueError` format string of common.go (unnamed/part_011),
applied to its three arguments. -/
def fmtOptionNotUniqueError (category a b : String) : String :=
"only one " ++ category ++ " option is allwed - you've specified at least two: "
  ++ a ++ ", " ++ b

/-- UnmarshalTagOptions, from unmarshal_tag_options.go. -/
structure UnmarshalTagOptions where
Presence : UnmarshalPresence
SliceValues : UnmarshalSliceValues
SliceUnexpectedValue : UnmarshalSliceUnexpectedValue
deriving DecidableEq, Repr

/-- NewUndefinedUnmarshalTagOptions, from unmarshal_tag_options.go. -/
def NewUndefinedUnmarshalTagOptions : UnmarshalTagOptions :=
⟨.UPUnspecified, .UPUnspecified, .UPUnspecified⟩

/-- UnmarshalTagOptions.InitDefaults, from unmarshal_tag_options.go. -/
def UnmarshalTagOptions.InitDefaults (o : UnmarshalTagOptions) : UnmarshalTagOptions :=
let o := if o.Presence = .UPUnspecified then { o with Presence := .Opt } else o
let o := if o.SliceValues = .UPUnspecified then { o with SliceValues := .OverrideOld } else o
if o.SliceUnexpectedValue = .UPUnspecified then
  { o with SliceUnexpectedValue := .BreakWithError } else o

/-- UnmarshalTagOptions.ApplyDefaults, from unmarshal_tag_options.go. -/
def UnmarshalTagOptions.ApplyDefaults (o d : UnmarshalTagOptions) : UnmarshalTagOptions :=
let o := if o.Presence = .UPUnspecified then { o with Presence := d.Presence } else o
let o := if o.SliceValues = .UPUnspecified then { o with SliceValues := d.SliceValues } else o
if o.SliceUnexpectedValue = .UPUnspecified then
  { o with SliceUnexpectedValue := d.SliceUnexpectedValue } else o

/-- UnmarshalTagOptions.ParseOption, from unmarshal_tag_options.go: tries the
three unmarshal option vocabularies in turn; a value for an already-set
category is a duplicate-option error; returns whether any vocabulary matched. -/
def UnmarshalTagOptions.ParseOption (o : UnmarshalTagOptions) (option : String) :
    Except String (UnmarshalTagOptions × Bool) := do
let mut res := o
let mut bOk := false
match UnmarshalPresenceFromString option with
| some value =>
  if res.Presence ≠ .UPUnspecified then
    throw (fmtOptionNotUniqueError "UnmarshalPresence" res.Presence.render value.render)
  res := { res with Presence := value }
  bOk := true
| none => pure ()
match UnmarshalSliceValuesFromString option with
| some value =>
  if res.SliceValues ≠ .UPUnspecified then
    throw (fmtOptionNotUniqueError "UnmarshalSliceValues" res.SliceValues.render value.render)
  res := { res with SliceValues := value }
  bOk := true
| none => pure ()
match UnmarshalSliceUnexpectedValueFromString option with
| some value =>
  if res.SliceUnexpectedValue ≠ .UPUnspecified then
    throw (fmtOptionNotUniqueError "UnmarshalSliceUnexpectedValue"
      res.SliceUnexpectedValue.render value.render)
  res := { res with SliceUnexpectedValue := value }
  bOk := true
| none => pure ()
return (res, bOk)

/-- MarshalTagOptions, from marshal_options source (appended to marshaler_cache.go). -/
structure MarshalTagOptions where
Presence : MarshalPresence
deriving DecidableEq, Repr

/-- NewUndefinedMarshalTagOptions. -/
def NewUndefinedMarshalTagOptions : MarshalTagOptions := ⟨.MPUnspecified⟩

/-- MarshalTagOptions.InitDefaults. -/
def MarshalTagOptions.InitDefaults (o : MarshalTagOptions) : MarshalTagOptions :=
if o.Presence = .MPUnspecified then { o with Presence := .KeepEmpty } else o

/-- MarshalTagOptions.ApplyDefaults. -/
def MarshalTagOptions.ApplyDefaults (o d : MarshalTagOptions) : MarshalTagOptions :=
if o.Presence = .MPUnspecified then { o with Presence := d.Presence } else o

/-- CommonTagOptions, from the common tag options source (unnamed/part_001). -/
structure CommonTagOptions where
SliceSeparator : OptionSliceSeparator
deriving DecidableEq, Repr

/-- NewUndefinedCommonTagOptions. -/
def NewUndefinedCommonTagOptions : CommonTagOptions := ⟨.Unspecified⟩

/-- CommonTagOptions.InitDefaults. -/
def CommonTagOptions.InitDefaults (o : CommonTagOptions) : CommonTagOptions :=
if o.SliceSeparator = .Unspecified then { o with SliceSeparator := .SeparatorNone } else o

/-- CommonTagOptions.ApplyDefaults. -/
def CommonTagOptions.ApplyDefaults (o d : CommonTagOptions) : CommonTagOptions :=
if o.SliceSeparator = .Unspecified then { o with SliceSeparator := d.SliceSeparator } else o

/-- CommonTagOptions.ParseOption, from unnamed/part_001. -/
def CommonTagOptions.ParseOption (o : CommonTagOptions) (option : String) :
    Except String (CommonTagOptions × Bool) := do
match OptionSliceSeparatorFromString option with
| some value =>
  if o.SliceSeparator ≠ .Unspecified then
    throw (fmtOptionNotUniqueError "OptionSliceSeparator" o.SliceSeparator.render value.render)
  return ({ o with SliceSeparator := value }, true)
| none => return (o, false)

/-- ParsedTagInfo, from common.go (unnamed/part_011 generation). -/
structure ParsedTagInfo where
Name : String
MarshalPresence : MarshalPresence
UnmarshalOpts : UnmarshalTagOptions
CommonOpts : CommonTagOptions
deriving DecidableEq, Repr

/-- Model of Go `strings.Split(s, sep)` for a single-character separator,
operating on the character list. `strings.Split("", ",") = [""]`. -/
def goSplitAux (sep : Char) : List Char → List Char → List (List Char)
| [], acc => [acc.reverse]
| c :: cs, acc =>
  if c = sep then acc.reverse :: goSplitAux sep cs [] else goSplitAux sep cs (c :: acc)

/-- Model of Go `strings.Split` with a one-character separator. -/
def goSplit (s : String) (sep : Char) : List String :=
(goSplitAux sep s.toList []).map List.asString

/-- parseFieldTag, from common.go (unnamed/part_011): split the qs tag value on
commas, take the first segment as the name, reject empty option tokens
(surplus comma), parse each option token against the common / unmarshal /
marshal vocabularies, reject unrecognized tokens, then fill unset categories
from the defaults. The input `v` is the value of the `qs` struct-tag key. -/
def parseFieldTag (v : String) (defaultMarshalTagOptions : MarshalTagOptions)
    (defaultUnmarshalTagOptions : UnmarshalTagOptions)
    (defaultCommonTagOptions : CommonTagOptions) :
    Except String ParsedTagInfo := do
let nameAndOptions := goSplit v ','
let tagInit : ParsedTagInfo :=
  ⟨nameAndOptions.headI, .MPUnspecified, NewUndefinedUnmarshalTagOptions,
    NewUndefinedCommonTagOptions⟩
let options := nameAndOptions.tail
if options.any (fun i => i.length = 0) then
  throw "tag string contains a surplus comma"
let mut tag := tagInit
for option in options do
  let (commonOpts, bCommonOptFound) ← tag.CommonOpts.ParseOption option
  tag := { tag with CommonOpts := commonOpts }
  let (unmarshalOpts, bUnmarshalOptFound) ← tag.UnmarshalOpts.ParseOption option
  tag := { tag with UnmarshalOpts := unmarshalOpts }
  let mut bMarshalOptFound := false
  match MarshalPresenceFromString option with
  | some value =>
    if tag.MarshalPresence ≠ .MPUnspecified then
      throw (fmtOptionNotUniqueError "MarshalPresence" tag.MarshalPresence.render v)
    tag := { tag with MarshalPresence := value }
    bMarshalOptFound := true
  | none => pure ()
  if ¬bCommonOptFound ∧ ¬bUnmarshalOptFound ∧ ¬bMarshalOptFound then
    throw ("invalid option in field tag: " ++ "\x22" ++ option ++ "\x22")
if tag.MarshalPresence = .MPUnspecified then
  tag := { tag with MarshalPresence := defaultMarshalTagOptions.Presence }
tag := { tag with UnmarshalOpts :=
  tag.UnmarshalOpts.ApplyDefaults defaultUnmarshalTagOptions }
tag := { tag with CommonOpts := tag.CommonOpts.ApplyDefaults defaultCommonTagOptions }
return tag

/-- snakeCase, from common.go: converts CamelCase names to snake_case. The Go
original uses the unicode package; the Lean model uses the ASCII
`Char.isLower`/`Char.isUpper`/`Char.toLower`, which agree on ASCII names. -/
def snakeCase (s : String) : String :=
let inp := s.toList
let isLower : Int → Bool := fun idx =>
  0 ≤ idx ∧ idx < inp.length ∧ (inp.getD idx.toNat ' ').isLower
let step : List Char × Int → Char → List Char × Int := fun (out, i) r =>
  if r.isUpper then
    let r := r.toLower
    if i > 0 ∧ inp.getD (i - 1).toNat ' ' ≠ '_' ∧ (isLower (i - 1) ∨ isLower (i + 1)) then
      (r :: '_' :: out, i + 1)
    else
      (r :: out, i + 1)
  else
    (r :: out, i + 1)
((inp.foldl step ([], 0)).1.reverse).asString

/-- getStructFieldInfo, from common.go (unnamed/part_011): skip unexported
non-anonymous fields, parse the tag (`ok none` models Go's nil-tag result used
to skip a field), skip `-`-named fields, default the name through the name
transform. The Go `reflect.StructField` is passed as its name, its qs tag
value, and its exported/anonymous flags. -/
def getStructFieldInfo (fieldName : String) (fieldTag : String)
    (exported anonymous : Bool) (nt : String → String)
    (defaultMarshalTagOptions : MarshalTagOptions)
    (defaultUnmarshalTagOptions : UnmarshalTagOptions)
    (defaultCommonTagOptions : CommonTagOptions) :
    Except String (Option ParsedTagInfo) := do
if ¬exported ∧ ¬anonymous then
  return none
match parseFieldTag fieldTag defaultMarshalTagOptions defaultUnmarshalTagOptions
    defaultCommonTagOptions with
| .error e =>
  throw ("invalid tag: " ++ "\x22" ++ fieldTag ++ "\x22" ++ " :: " ++ e)
| .ok tag =>
  if tag.Name = "-" then
    return none
  if tag.Name = "" then
    return some { tag with Name := nt fieldName }
  return some tag

/-! ### Models of the Go strconv routines used by the primitive converters

The primitive converters in unmarshal_strings.go delegate to
`strconv.ParseBool` / `ParseInt(s, 0, bits)` / `ParseUint(s, 0, bits)` /
`ParseFloat`. These stdlib routines are modelled here from their documented
grammar. The model keeps Go's base-0 prefix detection (`0b`/`0o`/`0x`,
leading `0` = octal), digit/range checking and sign handling; it diverges
from Go only in rejecting `_` digit separators (no input in this
development contains `_`). -/

/-- Parse error discriminator of the strconv model: Go's ErrSyntax/ErrRange. -/
inductive ParseErr where
| syntaxErr
| rangeErr
deriving DecidableEq, Repr

/-- Digit value of a character, as in Go strconv: `0-9`, `a-z`, `A-Z`. -/
def digitVal (c : Char) : Option Nat :=
if '0' ≤ c ∧ c ≤ '9' then some (c.toNat - '0'.toNat)
else if 'a' ≤ c ∧ c ≤ 'z' then some (c.toNat - 'a'.toNat + 10)
else if 'A' ≤ c ∧ c ≤ 'Z' then some (c.toNat - 'A'.toNat + 10)
else none

/-- ASCII lower-casing as used by strconv's prefix detection. -/
def lowerAscii (c : Char) : Char :=
if c.isUpper then c.toLower else c

/-- The digit-accumulation loop of Go `strconv.ParseUint`: reject non-digits
and digits outside the base, report a range error when the accumulator passes
the cutoff or the next value would exceed `maxVal`. -/
def parseUintLoop (base maxVal : Nat) : List Char → Nat → Except ParseErr Nat
| [], n => .ok n
| c :: cs, n =>
  match digitVal c with
  | none => .error .syntaxErr
  | some d =>
    if d ≥ base then .error .syntaxErr
    else if n ≥ maxVal / base + 1 then .error .rangeErr
    else if n * base + d > maxVal then .error .rangeErr
    else parseUintLoop base maxVal cs (n * base + d)

/-- Base-0 prefix detection of Go `strconv.ParseUint`: `0b`/`0o`/`0x`
prefixes select the base (when at least one more character follows), a bare
leading `0` selects octal, anything else is decimal. -/
def parseUintBasePrefix : List Char → Nat × List Char
| [] => (10, [])
| c :: rest =>
  if c = '0' then
    match rest with
    | [] => (8, [])
    | c2 :: rest2 =>
      if rest2 ≠ [] ∧ lowerAscii c2 = 'b' then (2, rest2)
      else if rest2 ≠ [] ∧ lowerAscii c2 = 'o' then (8, rest2)
      else if rest2 ≠ [] ∧ lowerAscii c2 = 'x' then (16, rest2)
      else (8, c2 :: rest2)
  else (10, c :: rest)

/-- Model of Go `strconv.ParseUint(s, base, bitSize)` on a character list;
`base = 0` enables prefix detection, `bitSize = 0` means the platform int
size (64). -/
def goParseUintChars (cs : List Char) (base bitSize : Nat) : Except ParseErr Nat :=
if cs = [] then .error .syntaxErr
else
  let bc := if base ≠ 0 then (base, cs) else parseUintBasePrefix cs
  let bits := if bitSize = 0 then 64 else bitSize
  parseUintLoop bc.1 (2 ^ bits - 1) bc.2 0

/-- Model of Go `strconv.ParseInt(s, base, bitSize)` on a character list:
strip one sign character, parse the rest as a 64-bit unsigned number (a range
error there saturates the accumulator), then apply the signed cutoff. -/
def goParseIntChars (cs : List Char) (base bitSize : Nat) : Except ParseErr Int :=
match cs with
| [] => .error .syntaxErr
| c :: cs' =>
  let nr : Bool × List Char :=
    if c = '+' then (false, cs') else if c = '-' then (true, cs') else (false, c :: cs')
  match goParseUintChars nr.2 base 64 with
  | .error .syntaxErr => .error .syntaxErr
  | r =>
    let un : Nat := match r with | .ok n => n | .error _ => 2 ^ 64 - 1
    let bits := if bitSize = 0 then 64 else bitSize
    let cutoff := 2 ^ (bits - 1)
    if ¬nr.1 ∧ un ≥ cutoff then .error .rangeErr
    else if nr.1 ∧ un > cutoff then .error .rangeErr
    else .ok (if nr.1 then -(un : Int) else (un : Int))

/-- Model of Go `strconv.ParseUint`. -/
def goParseUint (s : String) (base bitSize : Nat) : Except ParseErr Nat :=
goParseUintChars s.toList base bitSize

/-- Model of Go `strconv.ParseInt`. -/
def goParseInt (s : String) (base bitSize : Nat) : Except ParseErr Int :=
goParseIntChars s.toList base bitSize

/-- Model of Go `strconv.ParseBool`: the canonical true/false literal set. -/
def goParseBool (s : String) : Except ParseErr Bool :=
if s = "1" ∨ s = "t" ∨ s = "T" ∨ s = "TRUE" ∨ s = "true" ∨ s = "True" then .ok true
else if s = "0" ∨ s = "f" ∨ s = "F" ∨ s = "FALSE" ∨ s = "false" ∨ s = "False" then .ok false
else .error .syntaxErr

/-- The character of a decimal digit. -/
def digitChar (d : Nat) : Char := Char.ofNat ('0'.toNat + d)

/-- Big-endian decimal digits of a natural number (fuel-driven; `fuel > n`
suffices). Models the digit production of Go `strconv.FormatUint(n, 10)`. -/
def natToDecAux : Nat → Nat → List Char
| 0, _ => []
| fuel + 1, n =>
  if n < 10 then [digitChar n] else natToDecAux fuel (n / 10) ++ [digitChar (n % 10)]

/-- Decimal digit characters of `n`. -/
def natToDec (n : Nat) : List Char := natToDecAux (n + 1) n

/-- Model of Go `strconv.FormatUint(n, 10)`. -/
def goFormatUint (n : Nat) : String := (natToDec n).asString

/-- Model of Go `strconv.FormatInt(v, 10)`. -/
def goFormatInt (v : Int) : String :=
if v < 0 then ("-" ++ (natToDec (-v).toNat).asString) else (natToDec v.toNat).asString

/-- Model of Go `strconv.FormatBool`. -/
def goFormatBool (b : Bool) : String := if b then "true" else "false"

/-! ### Round-trip lemmas for the strconv model -/

lemma digitVal_digitChar {d : Nat} (h : d < 10) : digitVal (digitChar d) = some d := by
interval_cases d <;> rfl

lemma digitChar_ne_zeroChar {d : Nat} (h0 : 0 < d) (h10 : d < 10) : digitChar d ≠ '0' := by
interval_cases d <;> decide

lemma digitChar_ne_plus {d : Nat} (h10 : d < 10) : digitChar d ≠ '+' := by
interval_cases d <;> decide

lemma digitChar_ne_minus {d : Nat} (h10 : d < 10) : digitChar d ≠ '-' := by
interval_cases d <;> decide

lemma parseUintLoop_append (base maxVal : Nat) (l1 l2 : List Char) (acc : Nat) :
    parseUintLoop base maxVal (l1 ++ l2) acc =
      (parseUintLoop base maxVal l1 acc).bind (fun m => parseUintLoop base maxVal l2 m) := by
induction l1 generalizing acc with
| nil => simp [parseUintLoop, Except.bind]
| cons c cs ih =>
  simp only [List.cons_append, parseUintLoop]
  cases hd : digitVal c with
  | none => simp [Except.bind]
  | some d =>
    simp only []
    split
    · simp [Except.bind]
    · split
      · simp [Except.bind]
      · split
        · simp [Except.bind]
        · exact ih (acc * base + d)

lemma natToDecAux_eq_natToDec : ∀ n f, n < f → natToDecAux f n = natToDec n := by
intro n
induction n using Nat.strong_induction_on with
| _ n ih =>
  intro f hf
  match f with
  | g + 1 =>
    unfold natToDec
    by_cases h10 : n < 10
    · unfold natToDecAux
      simp [h10]
    · have hn0 : 0 < n := by omega
      have hdiv : n / 10 < n := Nat.div_lt_self hn0 (by norm_num)
      unfold natToDecAux
      simp only [h10, if_false]
      rw [ih (n / 10) hdiv g (by omega), ih (n / 10) hdiv n (by omega)]

lemma natToDec_split {n : Nat} (h : 10 ≤ n) :
    natToDec n = natToDec (n / 10) ++ [digitChar (n % 10)] := by
have hn0 : 0 < n := by omega
have hdiv : n / 10 < n := Nat.div_lt_self hn0 (by norm_num)
conv_lhs => unfold natToDec natToDecAux
simp only [Nat.not_lt.mpr h, if_false]
rw [natToDecAux_eq_natToDec (n / 10) n hdiv]

lemma natToDec_lt10 {n : Nat} (h : n < 10) : natToDec n = [digitChar n] := by
unfold natToDec natToDecAux
simp [h]

lemma natToDec_ne_nil (n : Nat) : natToDec n ≠ [] := by
by_cases h10 : n < 10
· rw [natToDec_lt10 h10]
  simp
· rw [natToDec_split (by omega)]
  simp

lemma parseUintLoop_natToDec : ∀ n acc maxVal,
    acc * 10 ^ (Nat.log 10 n + 1) + n ≤ maxVal →
    parseUintLoop 10 maxVal (natToDec n) acc =
      .ok (acc * 10 ^ (Nat.log 10 n + 1) + n) := by
intro n
induction n using Nat.strong_induction_on with
| _ n ih =>
  intro acc maxVal hbound
  by_cases h10 : n < 10
  · have hlog : Nat.log 10 n = 0 := Nat.log_eq_zero_iff.mpr (Or.inl h10)
    rw [hlog] at hbound ⊢
    rw [natToDec_lt10 h10]
    simp only [zero_add, pow_one] at hbound ⊢
    have hc1 : ¬ acc ≥ maxVal / 10 + 1 := by
      have h1 : acc * 10 ≤ maxVal := le_trans (Nat.le_add_right _ _) hbound
      have h2 : acc ≤ maxVal / 10 := (Nat.le_div_iff_mul_le (by norm_num)).mpr h1
      omega
    have hc2 : ¬ acc * 10 + n > maxVal := by omega
    simp only [parseUintLoop, digitVal_digitChar h10]
    rw [if_neg (show ¬ n ≥ 10 by omega), if_neg hc1, if_neg hc2]
  · push_neg at h10
    have hn0 : 0 < n := by omega
    have hdiv : n / 10 < n := Nat.div_lt_self hn0 (by norm_num)
    rw [natToDec_split h10, parseUintLoop_append]
    have hlogd : Nat.log 10 (n / 10) = Nat.log 10 n - 1 := Nat.log_div_base 10 n
    have hlogpos : 1 ≤ Nat.log 10 n := Nat.log_pos (by norm_num) h10
    have hLs : Nat.log 10 (n / 10) + 1 = Nat.log 10 n := by omega
    have hdm : n / 10 * 10 + n % 10 = n := by omega
    have hpows : (10 : Nat) ^ (Nat.log 10 n + 1) = 10 ^ (Nat.log 10 n) * 10 := by
      rw [pow_succ]
    have key : (acc * 10 ^ (Nat.log 10 n) + n / 10) * 10 + n % 10
        = acc * 10 ^ (Nat.log 10 n + 1) + n := by
      calc (acc * 10 ^ (Nat.log 10 n) + n / 10) * 10 + n % 10
          = acc * (10 ^ (Nat.log 10 n) * 10) + (n / 10 * 10 + n % 10) := by ring
        _ = acc * 10 ^ (Nat.log 10 n + 1) + n := by rw [hdm, hpows]
    have hmid : acc * 10 ^ (Nat.log 10 n) + n / 10 ≤ maxVal := by
      have h1 : acc * 10 ^ (Nat.log 10 n) + n / 10
          ≤ (acc * 10 ^ (Nat.log 10 n) + n / 10) * 10 + n % 10 := by omega
      rw [key] at h1
      exact le_trans h1 hbound
    have hboundrec : acc * 10 ^ (Nat.log 10 (n / 10) + 1) + n / 10 ≤ maxVal := by
      rw [hLs]
      exact hmid
    rw [ih (n / 10) hdiv acc maxVal hboundrec]
    simp only [Except.bind, hLs]
    set m := acc * 10 ^ (Nat.log 10 n) + n / 10 with hm
    have hmod10 : n % 10 < 10 := Nat.mod_lt n (by norm_num)
    have hc1 : ¬ m ≥ maxVal / 10 + 1 := by
      have h1 : m * 10 ≤ maxVal := by
        have : m * 10 ≤ m * 10 + n % 10 := by omega
        rw [show m * 10 + n % 10 = acc * 10 ^ (Nat.log 10 n + 1) + n from key] at this
        exact le_trans this hbound
      have h2 : m ≤ maxVal / 10 := (Nat.le_div_iff_mul_le (by norm_num)).mpr h1
      omega
    have hc2 : ¬ m * 10 + n % 10 > maxVal := by
      rw [key]
      omega
    simp only [parseUintLoop, digitVal_digitChar hmod10]
    rw [if_neg (show ¬ n % 10 ≥ 10 by omega), if_neg hc1, if_neg hc2, key]

lemma natToDec_head (n : Nat) (h : 0 < n) :
    ∃ d cs, natToDec n = digitChar d :: cs ∧ 0 < d ∧ d < 10 := by
induction n using Nat.strong_induction_on with
| _ n ih =>
  by_cases h10 : n < 10
  · exact ⟨n, [], natToDec_lt10 h10, h, h10⟩
  · push_neg at h10
    have hdiv : n / 10 < n := Nat.div_lt_self (by omega) (by norm_num)
    have hdivpos : 0 < n / 10 := Nat.div_pos h10 (by norm_num)
    obtain ⟨d, cs, heq, hd0, hd10⟩ := ih (n / 10) hdiv hdivpos
    refine ⟨d, cs ++ [digitChar (n % 10)], ?_, hd0, hd10⟩
    rw [natToDec_split h10, heq]
    simp

lemma goParseUintChars_natToDec (n bitSize : Nat)
    (hbound : n ≤ 2 ^ (if bitSize = 0 then 64 else bitSize) - 1) :
    goParseUintChars (natToDec n) 0 bitSize = .ok n := by
unfold goParseUintChars
rw [if_neg (natToDec_ne_nil n)]
simp only [ne_eq, not_true_eq_false, if_false, reduceIte]
by_cases hn : n = 0
· subst hn
  have h0 : natToDec 0 = ['0'] := rfl
  rw [h0]
  simp [parseUintBasePrefix, parseUintLoop]
· obtain ⟨d, cs, heq, hd0, hd10⟩ := natToDec_head n (Nat.pos_of_ne_zero hn)
  rw [heq]
  have hpre : parseUintBasePrefix (digitChar d :: cs) = (10, digitChar d :: cs) := by
    simp only [parseUintBasePrefix]
    rw [if_neg (digitChar_ne_zeroChar hd0 hd10)]
  rw [hpre]
  simp only []
  rw [← heq]
  have := parseUintLoop_natToDec n 0
    (2 ^ (if bitSize = 0 then 64 else bitSize) - 1) (by simpa using hbound)
  simpa using this

lemma goParseUint_goFormatUint (n bitSize : Nat)
    (hbound : n ≤ 2 ^ (if bitSize = 0 then 64 else bitSize) - 1) :
    goParseUint (goFormatUint n) 0 bitSize = .ok n := by
unfold goParseUint goFormatUint
rw [show (natToDec n).asString.toList = natToDec n from rfl]
exact goParseUintChars_natToDec n bitSize hbound

lemma goParseIntChars_neg (cs : List Char) (bitSize : Nat)
    (m : Nat) (hu : goParseUintChars cs 0 64 = .ok m)
    (hbsne : ¬ bitSize = 0)
    (hcut : m ≤ 2 ^ (bitSize - 1)) :
    goParseIntChars ('-' :: cs) 0 bitSize = .ok (-(m : Int)) := by
simp only [goParseIntChars, Char.reduceEq, reduceIte, hu, hbsne, if_false]
rw [if_neg (by simp), if_neg (by simp [Nat.not_lt.mpr hcut])]

lemma goParseIntChars_pos (c : Char) (cs : List Char) (bitSize : Nat)
    (hp : ¬ c = '+') (hm : ¬ c = '-')
    (m : Nat) (hu : goParseUintChars (c :: cs) 0 64 = .ok m)
    (hbsne : ¬ bitSize = 0)
    (hcut : m < 2 ^ (bitSize - 1)) :
    goParseIntChars (c :: cs) 0 bitSize = .ok (m : Int) := by
simp only [goParseIntChars, hp, hm, reduceIte, hu, hbsne, if_false]
rw [if_neg (by simp [Nat.not_le.mpr hcut]), if_neg (by simp)]
norm_num

lemma goParseInt_goFormatInt (v : Int) (bitSize : Nat)
    (hbs1 : 0 < bitSize) (hbs2 : bitSize ≤ 64)
    (h1 : -(2 ^ (bitSize - 1) : Int) ≤ v) (h2 : v < 2 ^ (bitSize - 1)) :
    goParseInt (goFormatInt v) 0 bitSize = .ok v := by
have hbsne : ¬ bitSize = 0 := by omega
have hcast : ((2 ^ (bitSize - 1) : Nat) : Int) = 2 ^ (bitSize - 1) := by
  push_cast
  norm_num
have hpowle : (2 : Nat) ^ (bitSize - 1) ≤ 2 ^ 63 :=
  Nat.pow_le_pow_right (by norm_num) (by omega)
have h64 : (2 : Nat) ^ (bitSize - 1) ≤ 2 ^ 64 - 1 := by
  have : (2 : Nat) ^ 63 ≤ 2 ^ 64 - 1 := by norm_num
  omega
unfold goParseInt goFormatInt
by_cases hneg : v < 0
· rw [if_pos hneg]
  rw [show ("-" ++ (natToDec (-v).toNat).asString).toList
      = '-' :: natToDec (-v).toNat from rfl]
  have hvm : (-v).toNat ≤ 2 ^ (bitSize - 1) := by omega
  have hu : goParseUintChars (natToDec (-v).toNat) 0 64 = .ok ((-v).toNat) :=
    goParseUintChars_natToDec _ 64 (by norm_num at h64 ⊢; omega)
  rw [goParseIntChars_neg _ _ _ hu hbsne hvm]
  congr 1
  omega
· rw [if_neg hneg]
  push_neg at hneg
  rw [show ((natToDec v.toNat).asString).toList = natToDec v.toNat from rfl]
  have hvm : v.toNat < 2 ^ (bitSize - 1) := by omega
  have hu : goParseUintChars (natToDec v.toNat) 0 64 = .ok (v.toNat) :=
    goParseUintChars_natToDec _ 64 (by norm_num at h64 ⊢; omega)
  by_cases hz : v = 0
  · subst hz
    rw [show natToDec (0 : Int).toNat = ['0'] from rfl] at hu ⊢
    rw [goParseIntChars_pos '0' [] bitSize (by decide) (by decide) 0
      (by simp at hu; exact hu) hbsne (Nat.pos_pow_of_pos _ (by norm_num))]
    rfl
  · obtain ⟨d, cs, heq, hd0, hd10⟩ := natToDec_head v.toNat (by omega)
    rw [heq]
    rw [goParseIntChars_pos _ _ bitSize (digitChar_ne_plus hd10)
      (digitChar_ne_minus hd10) v.toNat (heq ▸ hu) hbsne hvm]
    congr 1
    omega


lemma goParseBool_goFormatBool (b : Bool) : goParseBool (goFormatBool b) = .ok b := by
cases b <;> rfl

/-! ### The value universe

Go runtime values of the kinds the entry-level factories dispatch on:
primitive kinds, the registered custom types `time.Time` and `url.URL`,
pointers and slices. Floats are modelled abstractly: a `GoFloat` carries its
shortest decimal representation (`strconv.FormatFloat(f, 'g', -1, bits)`),
which by the documented strconv contract is a faithful representation of the
underlying IEEE value; float parsing of a formatted float returns that float.
`time.Time` and `url.URL` values are likewise carried as their RFC3339 /
URL text; their stdlib parsers are outside this development's scope. -/

/-- Abstract model of a Go floating-point value: its canonical shortest
decimal representation. -/
structure GoFloat where
canonical : String
deriving DecidableEq, Repr

/-- The runtime types handled by the entry-level converter factories.
`tint 64` doubles for Go `int` (strconv bitSize 0 = 64 on target platforms);
widths are 8, 16, 32 or 64. -/
inductive GoType where
| tstr
| tbool
| tint (w : Nat)
| tuint (w : Nat)
| tfloat (w : Nat)
| ttime
| turl
| tptr (elem : GoType)
| tslice (elem : GoType)
deriving DecidableEq, Repr

/-- Runtime values; `vptrNil`/`vsliceNil` are the nil pointer/slice of the
given element type. -/
inductive GoValue where
| vstr (s : String)
| vbool (b : Bool)
| vint (w : Nat) (v : Int)
| vuint (w : Nat) (v : Nat)
| vfloat (w : Nat) (f : GoFloat)
| vtime (t : String)
| vurl (u : String)
| vptrNil (elem : GoType)
| vptr (elem : GoType) (x : GoValue)
| vsliceNil (elem : GoType)
| vslice (elem : GoType) (xs : List GoValue)
deriving Repr

/-- `reflect.Value.Type()` of a value. -/
def typeOf : GoValue → GoType
| .vstr _ => .tstr
| .vbool _ => .tbool
| .vint w _ => .tint w
| .vuint w _ => .tuint w
| .vfloat w _ => .tfloat w
| .vtime _ => .ttime
| .vurl _ => .turl
| .vptrNil e => .tptr e
| .vptr e _ => .tptr e
| .vsliceNil e => .tslice e
| .vslice e _ => .tslice e

/-- The Go zero value of a type (`reflect.New(t).Elem()`). The zero
`time.Time` formats to the RFC3339 text below; the zero float formats to
`"0"`. -/
def zeroValue : GoType → GoValue
| .tstr => .vstr ""
| .tbool => .vbool false
| .tint w => .vint w 0
| .tuint w => .vuint w 0
| .tfloat w => .vfloat w ⟨"0"⟩
| .ttime => .vtime "0001-01-01T00:00:00Z"
| .turl => .vurl ""
| .tptr e => .vptrNil e
| .tslice e => .vsliceNil e

/-- Rendering of a type for diagnostics (Go's `%v` on a reflect.Type). -/
def renderType : GoType → String
| .tstr => "string"
| .tbool => "bool"
| .tint w => "int" ++ toString w
| .tuint w => "uint" ++ toString w
| .tfloat w => "float" ++ toString w
| .ttime => "time.Time"
| .turl => "url.URL"
| .tptr e => "*" ++ renderType e
| .tslice e => "[]" ++ renderType e

/-- The Go error values surfaced by the engine. `req` models `*qs.ReqError`
(its `Message` and `FieldName` fields); `plain` models every other error
(including errors re-wrapped by `fmt.Errorf` with `%v`, which erases the
concrete error type). From the error source (unnamed/part_009). -/
inductive QsError where
| req (Message : String) (FieldName : String)
| plain (Message : String)
deriving DecidableEq, Repr

/-- The `Error()` text of an error. -/
def errText : QsError → String
| .req m _ => m
| .plain m => m

/-- IsRequiredFieldError, from unnamed/part_009: the dynamic type test
`e.(*ReqError)`; returns the missing field's name and ok. -/
def IsRequiredFieldError : QsError → String × Bool
| .req _ f => (f, true)
| .plain _ => ("", false)

/-- Go `%q` of a string (escaping of special characters not modelled;
no string in this development needs escapes). -/
def quoteStr (s : String) : String := "\x22" ++ s ++ "\x22"

/-- WrongTypeError's message, from unnamed/part_009. -/
def wrongTypeErrorQs (actual expected : GoType) : QsError :=
.plain ("received type " ++ renderType actual ++ ", want " ++ renderType expected)

/-- WrongKindError's message, from unnamed/part_009 (the kind is rendered via
the type; exact kind spelling is not load-bearing). -/
def wrongKindErrorQs (actual : GoType) (expectedKind : String) : QsError :=
.plain ("received type " ++ renderType actual ++ " of kind " ++ renderType actual
  ++ ", want kind " ++ expectedKind)

/-- Error text of the strconv model's errors, after Go's `*strconv.NumError`. -/
def numErrorText (fnName s : String) (e : ParseErr) : String :=
"strconv." ++ fnName ++ ": parsing " ++ quoteStr s ++ ": " ++
  (match e with | .syntaxErr => "invalid syntax" | .rangeErr => "value out of range")

/-! ### Entry-level unmarshaling

Models of unmarshal_strings.go and the primitive wrapper of
unmarshaler_factory.go. A Go `Unmarshal(v reflect.Value, a []string, opts)`
call mutates `v` in place and returns an error; the model returns the
post-call value together with the optional error, so partial mutations
(e.g. a slice cleared on a stop-on-error failure) stay observable. -/

/-- The per-call UnmarshalOptions (unnamed/part_000): the pipeline options
(of which only `SliceToString` is consulted by entry-level converters) plus
the current field's parsed tag. -/
structure UnmarshalOptions where
SliceToString : List String → Except String String
ParsedTagInfo : ParsedTagInfo

/-- Go's `%v` rendering of a `[]string`. -/
def renderStringSlice (a : List String) : String :=
"[" ++ String.intercalate " " a ++ "]"

/-- defaultSliceToString, from unnamed/part_000: rejects every value list
whose length differs from 1. -/
def defaultSliceToString (a : List String) : Except String String :=
if a.length ≠ 1 then
  .error ("SliceToString expects array length == 1. array=" ++ renderStringSlice a)
else .ok a.headI

/-- unmarshalString, from unmarshal_strings.go. -/
def unmarshalString (v : GoValue) (s : String) (_ : UnmarshalOptions) :
    GoValue × Option QsError :=
match v with
| .vstr _ => (.vstr s, none)
| _ => (v, some (wrongKindErrorQs (typeOf v) "string"))

/-- unmarshalBool, from unmarshal_strings.go. -/
def unmarshalBool (v : GoValue) (s : String) (_ : UnmarshalOptions) :
    GoValue × Option QsError :=
match v with
| .vbool _ =>
  match goParseBool s with
  | .ok b => (.vbool b, none)
  | .error e => (v, some (.plain (numErrorText "ParseBool" s e)))
| _ => (v, some (wrongKindErrorQs (typeOf v) "bool"))

/-- unmarshalInt, from unmarshal_strings.go: the bit size is taken from the
value's kind and the literal is parsed with the base-0 grammar. -/
def unmarshalInt (v : GoValue) (s : String) (_ : UnmarshalOptions) :
    GoValue × Option QsError :=
match v with
| .vint w _ =>
  match goParseInt s 0 w with
  | .ok i => (.vint w i, none)
  | .error e => (v, some (.plain (numErrorText "ParseInt" s e)))
| _ => (v, some (wrongKindErrorQs (typeOf v) "int"))

/-- unmarshalUint, from unmarshal_strings.go. -/
def unmarshalUint (v : GoValue) (s : String) (_ : UnmarshalOptions) :
    GoValue × Option QsError :=
match v with
| .vuint w _ =>
  match goParseUint s 0 w with
  | .ok i => (.vuint w i, none)
  | .error e => (v, some (.plain (numErrorText "ParseUint" s e)))
| _ => (v, some (wrongKindErrorQs (typeOf v) "uint"))

/-- unmarshalFloat, from unmarshal_strings.go. The strconv float parser is
modelled abstractly: on a float-kinded target it stores the input text as the
canonical representation of the parsed float (parse failures of the stdlib
float grammar are not modelled; no claim depends on them). -/
def unmarshalFloat (v : GoValue) (s : String) (_ : UnmarshalOptions) :
    GoValue × Option QsError :=
match v with
| .vfloat w _ => (.vfloat w ⟨s⟩, none)
| _ => (v, some (wrongKindErrorQs (typeOf v) "float32"))

/-- unmarshalTime, from unmarshal_strings.go. The RFC3339 parse is modelled
abstractly (the text is stored); only the type check and the surrounding
length-1 gate are load-bearing for the claims. -/
def unmarshalTime (v : GoValue) (s : String) (_ : UnmarshalOptions) :
    GoValue × Option QsError :=
match v with
| .vtime _ => (.vtime s, none)
| _ => (v, some (wrongTypeErrorQs (typeOf v) .ttime))

/-- unmarshalURL, from unmarshal_strings.go, modelled like `unmarshalTime`. -/
def unmarshalURL (v : GoValue) (s : String) (_ : UnmarshalOptions) :
    GoValue × Option QsError :=
match v with
| .vurl _ => (.vurl s, none)
| _ => (v, some (wrongTypeErrorQs (typeOf v) .turl))

/-- primitiveUnmarshalerFunc.Unmarshal, from unmarshaler_factory.go lines
178-187: a nil value list leaves the target untouched and succeeds; otherwise
the list is funnelled through `opts.SliceToString` before the primitive
parser is consulted. -/
def primitiveUnmarshal
    (fn : GoValue → String → UnmarshalOptions → GoValue × Option QsError)
    (v : GoValue) (a : Option (List String)) (opts : UnmarshalOptions) :
    GoValue × Option QsError :=
match a with
| none => (v, none)
| some l =>
  match opts.SliceToString l with
  | .error e => (v, some (.plain e))
  | .ok s => fn v s opts

/-- splitArrayBySeparatorWithSameOrder, from unmarshal_strings.go: expand the
value list by splitting each string on the resolved separator, preserving
order. `none` models the `panic` on an unspecified separator (unreachable
after tag defaulting). -/
def splitArrayBySeparatorWithSameOrder (a : List String)
    (separatorType : OptionSliceSeparator) : Option (List String) :=
match separatorType with
| .Comma => some (a.flatMap (fun s => goSplit s ','))
| .Semicolon => some (a.flatMap (fun s => goSplit s ';'))
| .Space => some (a.flatMap (fun s => goSplit s ' '))
| .SeparatorNone => some a
| .Unspecified => none

/-- The element loop of sliceUnmarshaler.Unmarshal (unmarshal_strings.go lines
166-178): `f` is the element unmarshaler, `s` the pre-sized target backing,
`i` the input index, `n` the write position (advanced only on success). On an
element error the loop either stops with the wrapped error (stop-on-error) or
drops the element and continues. -/
def sliceUnmarshalLoop
    (f : GoValue → Option (List String) → GoValue × Option QsError)
    (zero : GoValue) (breakOnError : Bool) :
    List String → Nat → List GoValue → Nat →
    List GoValue × Nat × Option QsError
| [], _, s, n => (s, n, none)
| x :: rest, i, s, n =>
  let r := f (s.getD n zero) (some [x])
  match r.2 with
  | none => sliceUnmarshalLoop f zero breakOnError rest (i + 1) (s.set n r.1) (n + 1)
  | some err =>
    if breakOnError then
      (s.set n r.1, n,
        some (.plain ("error unmarshaling slice index " ++ toString i ++ " :: "
          ++ errText err)))
    else sliceUnmarshalLoop f zero breakOnError rest (i + 1) (s.set n r.1) n

/-- Entry-level unmarshaling: the dispatch of unmarshalerFactory.Unmarshaler
(types map → kind sub-factories → kind map) fused with the behavior of the
produced unmarshaler (ptrUnmarshaler / sliceUnmarshaler / primitive wrapper,
unmarshal_strings.go). Fixed-size arrays and custom registrations are outside
the universe of the claims. Type mismatches reproduce the converters' own
Wrong-Type/Wrong-Kind checks. -/
def unmarshal (t : GoType) (v : GoValue) (a : Option (List String))
    (opts : UnmarshalOptions) : GoValue × Option QsError :=
match t with
| .tstr => primitiveUnmarshal unmarshalString v a opts
| .tbool => primitiveUnmarshal unmarshalBool v a opts
| .tint _ => primitiveUnmarshal unmarshalInt v a opts
| .tuint _ => primitiveUnmarshal unmarshalUint v a opts
| .tfloat _ => primitiveUnmarshal unmarshalFloat v a opts
| .ttime => primitiveUnmarshal unmarshalTime v a opts
| .turl => primitiveUnmarshal unmarshalURL v a opts
| .tptr e =>
  if typeOf v ≠ .tptr e then (v, some (wrongTypeErrorQs (typeOf v) (.tptr e)))
  else
    let inner := match v with | .vptr _ x => x | _ => zeroValue e
    let r := unmarshal e inner a opts
    (.vptr e r.1, r.2)
| .tslice e =>
  if typeOf v ≠ .tslice e then (v, some (wrongTypeErrorQs (typeOf v) (.tslice e)))
  else
    match splitArrayBySeparatorWithSameOrder (a.getD [])
        opts.ParsedTagInfo.CommonOpts.SliceSeparator with
    | none => (v, some (.plain "panic: unexpected qs.OptionSliceSeparator"))
    | some vals =>
      let zeroE := zeroValue e
      let init : List GoValue × Nat :=
        match v with
        | .vslice _ old =>
          if opts.ParsedTagInfo.UnmarshalOpts.SliceValues = .KeepOld then
            (old ++ List.replicate vals.length zeroE, old.length)
          else (List.replicate vals.length zeroE, 0)
        | _ => (List.replicate vals.length zeroE, 0)
      let breakOnError :=
        opts.ParsedTagInfo.UnmarshalOpts.SliceUnexpectedValue = .BreakWithError
      let r := sliceUnmarshalLoop (fun v' a' => unmarshal e v' a' opts) zeroE
        breakOnError vals 0 init.1 init.2
      match r.2.2 with
      | some err => (.vslice e [], some err)
      | none => (.vslice e (r.1.take r.2.1), none)
termination_by sizeOf t
decreasing_by all_goals simp_wf

/-! ### Values-level converters: struct and map

Models of unmarshal_values.go and marshaler_factory.go. A struct descriptor
is the output of newStructUnmarshaler/newStructMarshaler: the direct fields
(parsed tag and type, in declaration order) and the embedded anonymous
fields (Go field name and sub-descriptor). Struct values are positional:
the n-th direct field value matches the n-th field descriptor. The
`WrongTypeError` guard of the Go code (an internal-misuse check comparing
`v.Type()` with the descriptor's type, unreachable through the public API)
is not modelled at this level. -/

/-- url.Values: string key to ordered list of string values. Iteration order
is the list order; keys are unique in every value built or consumed here. -/
abbrev Values := List (String × List String)

/-- Association-list lookup (Go map indexing). -/
def assocLookup {κ β : Type} [DecidableEq κ] : List (κ × β) → κ → Option β
| [], _ => none
| (k, b) :: rest, key => if k = key then some b else assocLookup rest key

/-- Association-list insert with replace (Go map assignment). -/
def assocSet {κ β : Type} [DecidableEq κ] : List (κ × β) → κ → β → List (κ × β)
| [], key, b => [(key, b)]
| (k, b') :: rest, key, b =>
  if k = key then (key, b) :: rest else (k, b') :: assocSet rest key b

/-- Struct descriptor: type name (for diagnostics), direct fields and
embedded anonymous fields, as collected by newStructUnmarshaler /
newStructMarshaler. -/
inductive StructDesc where
| mk (typeName : String) (Fields : List (ParsedTagInfo × GoType))
    (EmbeddedFields : List (String × StructDesc))

/-- The struct type's name. -/
def StructDesc.typeName : StructDesc → String
| .mk n _ _ => n

/-- The direct field descriptors. -/
def StructDesc.Fields : StructDesc → List (ParsedTagInfo × GoType)
| .mk _ f _ => f

/-- The embedded field descriptors. -/
def StructDesc.EmbeddedFields : StructDesc → List (String × StructDesc)
| .mk _ _ e => e

/-- A struct value: direct field values and embedded struct values,
positionally matching a `StructDesc`. -/
inductive StructVal where
| mk (fields : List GoValue) (embedded : List StructVal)

/-- The direct field values. -/
def StructVal.fields : StructVal → List GoValue
| .mk f _ => f

/-- The embedded struct values. -/
def StructVal.embedded : StructVal → List StructVal
| .mk _ e => e

/-- The pipeline-level options consulted by the values-level unmarshalers:
UnmarshalerDefaultOptions of unnamed/part_000 (factories omitted — dispatch
is fused into `unmarshal`). -/
structure UnmarshalerDefaultOptions where
NameTransformer : String → String
SliceToString : List String → Except String String
TagOptionsDefaults : UnmarshalTagOptions
TagCommonOptionsDefaults : CommonTagOptions

/-- NewUnmarshalOptions, from unnamed/part_000: per-call options from the
pipeline options and the field tag; a nil tag gets the pipeline's tag-option
defaults. -/
def NewUnmarshalOptions (opt : UnmarshalerDefaultOptions)
    (tag : Option ParsedTagInfo) : UnmarshalOptions :=
match tag with
| some t => ⟨opt.SliceToString, t⟩
| none => ⟨opt.SliceToString,
    ⟨"", .MPUnspecified, opt.TagOptionsDefaults, opt.TagCommonOptionsDefaults⟩⟩

/-- NewDefaultUnmarshalOptions: the pipeline defaults installed by
prepareUnmarshalOptions (snake_case names, the length-1 SliceToString, and
initialized tag defaults). -/
def NewDefaultUnmarshalerOptions : UnmarshalerDefaultOptions :=
⟨snakeCase, defaultSliceToString,
  NewUndefinedUnmarshalTagOptions.InitDefaults,
  NewUndefinedCommonTagOptions.InitDefaults⟩

/-- The direct-field loop of structUnmarshaler.UnmarshalValues
(unmarshal_values.go lines 103-120): look up each field's key; when absent,
`Nil` skips the field, `Req` fails immediately with a ReqError carrying the
field's encoded name, any other presence calls the field converter with a
nil value list; when present, the converter is called with the list and a
conversion error is re-wrapped (losing its concrete type) with the field's
encoded name. -/
def unmarshalFieldList (opts : UnmarshalerDefaultOptions) (structName : String) :
    List (ParsedTagInfo × GoType) → List GoValue → Values →
    List GoValue × Option QsError
| [], vsf, _ => (vsf, none)
| _ :: _, [], _ => ([], none)
| (tag, ty) :: fs, v :: vrest, vs =>
  let step : Option (GoValue × Option QsError) :=
    match assocLookup vs tag.Name with
    | none =>
      match tag.UnmarshalOpts.Presence with
      | .Nil => none
      | .Req => some (v, some (.req ("missing required field " ++ quoteStr tag.Name
          ++ " in struct " ++ structName) tag.Name))
      | _ => some (unmarshal ty v none (NewUnmarshalOptions opts (some tag)))
    | some a => some (unmarshal ty v (some a) (NewUnmarshalOptions opts (some tag)))
  match step with
  | none =>
    let r := unmarshalFieldList opts structName fs vrest vs
    (v :: r.1, r.2)
  | some (v', some err) =>
    match err with
    | .req m f => (v' :: vrest, some (.req m f))
    | .plain m => (v' :: vrest,
        some (.plain ("error unmarshaling url.Values entry " ++ quoteStr tag.Name
          ++ " :: " ++ m)))
  | some (v', none) =>
    let r := unmarshalFieldList opts structName fs vrest vs
    (v' :: r.1, r.2)

mutual

/-- structUnmarshaler.UnmarshalValues, from unmarshal_values.go lines 94-137:
process the direct fields, then recursively unmarshal every embedded field
against the full input map. -/
def unmarshalStruct (d : StructDesc) (v : StructVal) (vs : Values)
    (opts : UnmarshalerDefaultOptions) : StructVal × Option QsError :=
match d, v with
| .mk tn fl el, .mk vf ve =>
  let rf := unmarshalFieldList opts tn fl vf vs
  match rf.2 with
  | some err => (⟨rf.1, ve⟩, some err)
  | none =>
    let re := unmarshalEmbeddedList opts el ve vs
    (⟨rf.1, re.1⟩, re.2)
termination_by sizeOf d

/-- The embedded-field loop of structUnmarshaler.UnmarshalValues
(unmarshal_values.go lines 122-134): a Required-Field failure of the
sub-unmarshal is re-wrapped as a ReqError naming the outer Go field;
any other failure is re-wrapped as a plain error. -/
def unmarshalEmbeddedList (opts : UnmarshalerDefaultOptions) :
    List (String × StructDesc) → List StructVal → Values →
    List StructVal × Option QsError
| [], evs, _ => (evs, none)
| _ :: _, [], _ => ([], none)
| (goName, sub) :: es, ev :: evrest, vs =>
  let r := unmarshalStruct sub ev vs opts
  match r.2 with
  | some err =>
    if (IsRequiredFieldError err).2 then
      (r.1 :: evrest, some (.req ("embedded field " ++ quoteStr goName ++ " :: "
        ++ errText err) goName))
    else
      (r.1 :: evrest, some (.plain ("error unmarshaling embedded field "
        ++ quoteStr goName ++ " :: " ++ errText err)))
  | none =>
    let rrest := unmarshalEmbeddedList opts es evrest vs
    (r.1 :: rrest.1, rrest.2)
termination_by es _evs _vs => sizeOf es

end

/-- The entry loop of mapUnmarshaler.UnmarshalValues (unmarshal_values.go
lines 179-186): convert every input key's value list into a fresh zero
element and insert it under the key; the first conversion failure fails the
whole call. -/
def mapUnmarshalLoop (elemT : GoType) (opts : UnmarshalerDefaultOptions) :
    Values → List (String × GoValue) →
    List (String × GoValue) × Option QsError
| [], m => (m, none)
| (k, a) :: rest, m =>
  let item := zeroValue elemT
  let r := unmarshal elemT item (some a) (NewUnmarshalOptions opts none)
  match r.2 with
  | some err => (m, some (.plain ("error unmarshaling key " ++ quoteStr k ++ " :: "
      ++ errText err)))
  | none => mapUnmarshalLoop elemT opts rest (assocSet m k r.1)

/-- mapUnmarshaler.UnmarshalValues, from unmarshal_values.go lines 169-189:
the target map (`none` = nil) is allocated when nil — and only then — and
then populated from every input entry. -/
def mapUnmarshalValues (elemT : GoType) (v : Option (List (String × GoValue)))
    (vs : Values) (opts : UnmarshalerDefaultOptions) :
    List (String × GoValue) × Option QsError :=
mapUnmarshalLoop elemT opts vs (v.getD [])

/-! ### Values-level marshaling

Models of marshaler_factory.go. The primitive marshal bodies
(marshalString/Bool/Int/Uint/Float) and the pointer/slice marshalers are
referenced by the factory tables in src but their definitions are not under
src; they are modelled from the spec (§4.2): primitives format with the
standard decimal/boolean grammars and always yield exactly one string, a nil
pointer yields no strings, a pointer dereferences and delegates, a slice
marshals each element in order and concatenates. -/

/-- isEmpty, from marshaler_factory.go lines 333-350. A float is empty iff
the underlying value compares equal to 0.0, i.e. its canonical representation
is `0` or `-0`. -/
def isEmpty : GoValue → Bool
| .vptrNil _ => true
| .vptr _ _ => false
| .vbool b => !b
| .vint _ x => x = 0
| .vuint _ x => x = 0
| .vfloat _ f => f.canonical = "0" ∨ f.canonical = "-0"
| .vstr s => s.length = 0
| .vsliceNil _ => true
| .vslice _ xs => xs.length = 0
| .vtime _ => false
| .vurl _ => false

mutual

/-- Modelled from the spec: entry-level marshaling — the dispatch of
marshalerFactory.Marshaler fused with the primitive/pointer/slice marshaler
bodies missing from src. Kind checks mirror the unmarshal side. -/
def marshalValue (t : GoType) (v : GoValue) : Except QsError (List String) :=
match t with
| .tstr =>
  match v with
  | .vstr s => .ok [s]
  | _ => .error (wrongKindErrorQs (typeOf v) "string")
| .tbool =>
  match v with
  | .vbool b => .ok [goFormatBool b]
  | _ => .error (wrongKindErrorQs (typeOf v) "bool")
| .tint _ =>
  match v with
  | .vint _ x => .ok [goFormatInt x]
  | _ => .error (wrongKindErrorQs (typeOf v) "int")
| .tuint _ =>
  match v with
  | .vuint _ x => .ok [goFormatUint x]
  | _ => .error (wrongKindErrorQs (typeOf v) "uint")
| .tfloat _ =>
  match v with
  | .vfloat _ f => .ok [f.canonical]
  | _ => .error (wrongKindErrorQs (typeOf v) "float32")
| .ttime =>
  match v with
  | .vtime s => .ok [s]
  | _ => .error (wrongTypeErrorQs (typeOf v) .ttime)
| .turl =>
  match v with
  | .vurl s => .ok [s]
  | _ => .error (wrongTypeErrorQs (typeOf v) .turl)
| .tptr e =>
  match v with
  | .vptrNil _ => .ok []
  | .vptr _ x => marshalValue e x
  | _ => .error (wrongTypeErrorQs (typeOf v) (.tptr e))
| .tslice e =>
  match v with
  | .vsliceNil _ => .ok []
  | .vslice _ xs => marshalSliceElems e xs
  | _ => .error (wrongTypeErrorQs (typeOf v) (.tslice e))
termination_by (sizeOf t, 0)

/-- Modelled from the spec: slice marshaling marshals each element in order
and concatenates the resulting strings; an element error aborts. -/
def marshalSliceElems (e : GoType) : List GoValue → Except QsError (List String)
| [] => .ok []
| x :: xs => do
  let a ← marshalValue e x
  let rest ← marshalSliceElems e xs
  return a ++ rest
termination_by xs => (sizeOf e, xs.length + 1)

end

/-- The direct-field loop of structMarshaler.MarshalValues
(marshaler_factory.go lines 306-318): an omitempty field whose value is
empty is skipped before its converter runs; a converter yielding zero
strings produces no entry; otherwise the entry is written under the field's
encoded name. -/
def marshalFieldList : List (ParsedTagInfo × GoType) → List GoValue → Values →
    Except QsError Values
| [], _, vs => .ok vs
| _ :: _, [], vs => .ok vs
| (tag, ty) :: fs, fv :: frest, vs =>
  if tag.MarshalPresence = .OmitEmpty ∧ isEmpty fv then
    marshalFieldList fs frest vs
  else
    match marshalValue ty fv with
    | .error err => .error (.plain ("error marshaling url.Values entry "
        ++ quoteStr tag.Name ++ " :: " ++ errText err))
    | .ok a =>
      marshalFieldList fs frest (if a.length ≠ 0 then assocSet vs tag.Name a else vs)

mutual

/-- structMarshaler.MarshalValues, from marshaler_factory.go lines 295-331:
marshal the direct fields, then merge every embedded sub-map over the result
(last write wins per key). -/
def marshalStruct (d : StructDesc) (v : StructVal) : Except QsError Values :=
match d, v with
| .mk _ fl el, .mk vf ve =>
  match marshalFieldList fl vf [] with
  | .error e => .error e
  | .ok vs => marshalEmbeddedList el ve vs
termination_by sizeOf d

/-- The embedded-field loop of structMarshaler.MarshalValues. -/
def marshalEmbeddedList : List (String × StructDesc) → List StructVal → Values →
    Except QsError Values
| [], _, vs => .ok vs
| _ :: _, [], vs => .ok vs
| (goName, sub) :: es, ev :: evrest, vs =>
  match marshalStruct sub ev with
  | .error err => .error (.plain ("error marshaling embedded field "
      ++ quoteStr goName ++ " :: " ++ errText err))
  | .ok evs => marshalEmbeddedList es evrest (evs.foldl (fun acc kv => assocSet acc kv.1 kv.2) vs)
termination_by es _evs _vs => sizeOf es

end

/-! ### Descriptor construction -/

/-- A Go struct field as the descriptor builders see it: name, qs tag value,
field type and exportedness. Anonymous (embedded) fields are constructed
directly as descriptor entries (their build recurses through the
values-level factory, whose struct case is this very construction). -/
structure GoStructField where
name : String
tagStr : String
typ : GoType
exported : Bool

/-- The pipeline-level marshal options (MarshalOptions of marshal_options.go,
factories omitted). -/
structure MarshalOptions where
NameTransformer : String → String
TagOptionsDefaults : MarshalTagOptions
TagCommonOptionsDefaults : CommonTagOptions

/-- NewDefaultMarshalOptions, from marshal_options.go. -/
def NewDefaultMarshalOptionsM : MarshalOptions :=
⟨snakeCase, NewUndefinedMarshalTagOptions.InitDefaults,
  NewUndefinedCommonTagOptions.InitDefaults⟩

/-- The field loop of newStructUnmarshaler (unmarshal_values.go lines 43-60)
restricted to non-anonymous fields: getStructFieldInfo with undefined marshal
defaults and the pipeline's unmarshal/common tag defaults; a nil tag skips
the field; a tag error aborts descriptor construction. -/
def buildUnmarshalerFields (opts : UnmarshalerDefaultOptions) :
    List GoStructField → Except String (List (ParsedTagInfo × GoType))
| [] => .ok []
| f :: fs =>
  match getStructFieldInfo f.name f.tagStr f.exported false opts.NameTransformer
      NewUndefinedMarshalTagOptions opts.TagOptionsDefaults
      opts.TagCommonOptionsDefaults with
  | .error e => .error ("error creating unmarshaler for field " ++ f.name
      ++ " :: " ++ e)
  | .ok none => buildUnmarshalerFields opts fs
  | .ok (some tag) =>
    match buildUnmarshalerFields opts fs with
    | .error e => .error e
    | .ok rest => .ok ((tag, f.typ) :: rest)

/-- The field loop of newStructMarshaler (marshaler_factory.go lines 244-261)
restricted to non-anonymous fields: getStructFieldInfo with the pipeline's
marshal defaults and undefined unmarshal defaults. -/
def buildMarshalerFields (opts : MarshalOptions) :
    List GoStructField → Except String (List (ParsedTagInfo × GoType))
| [] => .ok []
| f :: fs =>
  match getStructFieldInfo f.name f.tagStr f.exported false opts.NameTransformer
      opts.TagOptionsDefaults NewUndefinedUnmarshalTagOptions
      opts.TagCommonOptionsDefaults with
  | .error e => .error ("error creating marshaler for field " ++ f.name
      ++ " :: " ++ e)
  | .ok none => buildMarshalerFields opts fs
  | .ok (some tag) =>
    match buildMarshalerFields opts fs with
    | .error e => .error e
    | .ok rest => .ok ((tag, f.typ) :: rest)

/-! ### The factory cache -/

/-- cacher, from common.go lines 159-178, with the sync.Map as an
association list from type keys to the stored outcome (a converter or the
error of the failed construction — the stored `any` is discriminated by the
type assertion, modelled by the `Except` constructors). The returned flag
records whether the wrapped factory was invoked. -/
def cacher {κ ε α : Type} [DecidableEq κ] (wrapped : κ → Except ε α)
    (cache : List (κ × Except ε α)) (t : κ) :
    Except ε α × List (κ × Except ε α) × Bool :=
match assocLookup cache t with
| some item => (item, cache, false)
| none =>
  let r := wrapped t
  (r, assocSet cache t r, true)

/-! ### Helper lemmas on association lists -/

lemma assocLookup_assocSet {κ β : Type} [DecidableEq κ] (l : List (κ × β)) (k : κ) (b : β) :
    assocLookup (assocSet l k b) k = some b := by
induction l with
| nil => simp [assocSet, assocLookup]
| cons p rest ih =>
  obtain ⟨k', b'⟩ := p
  by_cases h : k' = k
  · subst h
    simp [assocSet, assocLookup]
  · simp [assocSet, assocLookup, h, ih]

lemma assocLookup_cons_ne {κ β : Type} [DecidableEq κ] (k' : κ) (b' : β)
    (rest : List (κ × β)) (k : κ) (h : k' ≠ k) :
    assocLookup ((k', b') :: rest) k = assocLookup rest k := by
simp [assocLookup, h]

lemma assocSet_append_of_lookup_none {κ β : Type} [DecidableEq κ]
    (l : List (κ × β)) (k : κ) (b : β) (h : assocLookup l k = none) :
    assocSet l k b = l ++ [(k, b)] := by
induction l with
| nil => simp [assocSet]
| cons p rest ih =>
  obtain ⟨k', b'⟩ := p
  by_cases hk : k' = k
  · simp [assocLookup, hk] at h
  · simp only [assocLookup, hk, if_false, reduceIte] at h
    simp [assocSet, hk, ih h]

/-! ### Claim C9: factory-cache memoization of successes and failures -/

/-- C9: for every type whose first resolution through a pipeline's factory
cache misses, the first call invokes the wrapped factory exactly once and
stores its outcome (converter or error); the second call on the resulting
cache returns the identical outcome by direct lookup, leaves the cache
unchanged, and does not invoke the wrapped factory. -/
theorem claim_c9_cache_memoizes_success_and_failure {κ ε α : Type}
    [DecidableEq κ] (wrapped : κ → Except ε α)
    (cache : List (κ × Except ε α)) (t : κ)
    (hmiss : assocLookup cache t = none) :
    cacher wrapped cache t = (wrapped t, assocSet cache t (wrapped t), true) ∧
    cacher wrapped (assocSet cache t (wrapped t)) t
      = (wrapped t, assocSet cache t (wrapped t), false) := by
constructor
· simp [cacher, hmiss]
· simp [cacher, assocLookup_assocSet]

/-- Witness for C9: a factory that fails on key 0 and succeeds on key 1;
both outcomes are cached on first resolution and replayed on the second. -/
theorem claim_c9_witness :
    (assocLookup ([] : List (Nat × Except String Nat)) 0 = none ∧
      cacher (fun n => if n = 0 then .error "boom" else .ok n) [] 0
        = (.error "boom", [(0, .error "boom")], true) ∧
      cacher (fun n => if n = 0 then .error "boom" else .ok n) [(0, .error "boom")] 0
        = (.error "boom", [(0, .error "boom")], false)) := by
refine ⟨rfl, ?_⟩
have h := claim_c9_cache_memoizes_success_and_failure
  (fun n => if n = 0 then .error "boom" else .ok n) [] 0 rfl
exact ⟨h.1, h.2⟩

/-! ### Claim C10: the length-1 gate of the default SliceToString -/

/-- Whether a type dispatches to a primitive converter (primitive kinds plus
the registered custom types time.Time and url.URL). -/
def isPrimitiveGoType : GoType → Bool
| .tptr _ => false
| .tslice _ => false
| _ => true

lemma primitive_length_gate (t : GoType) (hprim : isPrimitiveGoType t = true)
    (v : GoValue) (a : List String) (hlen : a.length ≠ 1) (tag : ParsedTagInfo) :
    unmarshal t v (some a) ⟨defaultSliceToString, tag⟩
      = (v, some (.plain ("SliceToString expects array length == 1. array="
          ++ renderStringSlice a))) := by
cases t <;>
  simp [isPrimitiveGoType] at hprim <;>
  simp [unmarshal, primitiveUnmarshal, defaultSliceToString, hlen]

/-- C10: for a struct field of primitive kind (string, bool, integers,
floats) or of the custom types time.Time / url.URL, when the input map
contains the field's key with a value list whose length differs from 1,
unmarshaling the field fails with the default SliceToString's length error
(wrapped with the field's encoded name) before any primitive parser is
consulted, and the field value is left unmodified. -/
theorem claim_c10_length_gate (opts : UnmarshalerDefaultOptions)
    (hsts : opts.SliceToString = defaultSliceToString)
    (structName : String) (tag : ParsedTagInfo) (t : GoType)
    (hprim : isPrimitiveGoType t = true) (v : GoValue)
    (fs : List (ParsedTagInfo × GoType)) (vrest : List GoValue)
    (vs : Values) (a : List String)
    (hlk : assocLookup vs tag.Name = some a) (hlen : a.length ≠ 1) :
    unmarshalFieldList opts structName ((tag, t) :: fs) (v :: vrest) vs
      = (v :: vrest,
         some (.plain ("error unmarshaling url.Values entry " ++ quoteStr tag.Name
           ++ " :: " ++ "SliceToString expects array length == 1. array="
           ++ renderStringSlice a))) := by
have hstep : unmarshal t v (some a) (NewUnmarshalOptions opts (some tag))
    = (v, some (.plain ("SliceToString expects array length == 1. array="
        ++ renderStringSlice a))) := by
  show unmarshal t v (some a) ⟨opts.SliceToString, tag⟩ = _
  rw [hsts]
  exact primitive_length_gate t hprim v a hlen tag
have hmsg : (" :: " : String)
    ++ ("SliceToString expects array length == 1. array=" ++ renderStringSlice a)
    = " :: SliceToString expects array length == 1. array="
      ++ renderStringSlice a := by
  rw [← String.append_assoc]
  rfl
simp [unmarshalFieldList, hlk, hstep, String.append_assoc, hmsg]

/-- Witness for C10: an int field whose key carries two values fails with the
SliceToString length error. -/
theorem claim_c10_witness :
    unmarshalFieldList NewDefaultUnmarshalerOptions "S"
      [(⟨"x", .MPUnspecified, ⟨.Opt, .OverrideOld, .BreakWithError⟩,
          ⟨.SeparatorNone⟩⟩, .tint 64)]
      [.vint 64 0] [("x", ["1", "2"])]
      = ([.vint 64 0],
         some (.plain ("error unmarshaling url.Values entry " ++ quoteStr "x"
           ++ " :: " ++ "SliceToString expects array length == 1. array="
           ++ renderStringSlice ["1", "2"]))) := by
exact claim_c10_length_gate NewDefaultUnmarshalerOptions rfl "S" _ (.tint 64) rfl
  (.vint 64 0) [] [] [("x", ["1", "2"])] ["1", "2"] rfl (by decide)

/-! ### Claim C2: behavior on an absent field key -/

lemma unmarshal_none_primitive (t : GoType) (hprim : isPrimitiveGoType t = true)
    (v : GoValue) (opts : UnmarshalOptions) :
    unmarshal t v none opts = (v, none) := by
cases t <;> simp [isPrimitiveGoType] at hprim <;>
  simp [unmarshal, primitiveUnmarshal]

lemma split_nil_of_specified (sep : OptionSliceSeparator) (h : sep ≠ .Unspecified) :
    splitArrayBySeparatorWithSameOrder [] sep = some [] := by
cases sep <;> simp [splitArrayBySeparatorWithSameOrder] at h ⊢

/-- C2: for a direct struct field whose encoded key is absent from the input
map: presence `nil` leaves the field untouched and processing continues with
the remaining fields; presence `req` fails immediately (remaining fields
unprocessed) with a Required-Field error carrying the field's encoded name;
presence `opt` invokes the field's converter with a nil value list, which
leaves a field of primitive kind unmodified, initializes a nil pointer (to a
primitive pointee) to a freshly allocated zero instance, and initializes a
nil slice to a freshly allocated empty slice — and processing continues. -/
theorem claim_c2_absent_key_presence_policies
    (opts : UnmarshalerDefaultOptions) (structName : String)
    (tag : ParsedTagInfo) (ty : GoType) (v : GoValue)
    (fs : List (ParsedTagInfo × GoType)) (vrest : List GoValue) (vs : Values)
    (habs : assocLookup vs tag.Name = none) :
    (tag.UnmarshalOpts.Presence = .Nil →
      unmarshalFieldList opts structName ((tag, ty) :: fs) (v :: vrest) vs
        = (v :: (unmarshalFieldList opts structName fs vrest vs).1,
           (unmarshalFieldList opts structName fs vrest vs).2))
    ∧ (tag.UnmarshalOpts.Presence = .Req →
      unmarshalFieldList opts structName ((tag, ty) :: fs) (v :: vrest) vs
        = (v :: vrest,
           some (.req ("missing required field " ++ quoteStr tag.Name
             ++ " in struct " ++ structName) tag.Name)))
    ∧ (tag.UnmarshalOpts.Presence = .Opt →
      (isPrimitiveGoType ty = true →
        unmarshalFieldList opts structName ((tag, ty) :: fs) (v :: vrest) vs
          = (v :: (unmarshalFieldList opts structName fs vrest vs).1,
             (unmarshalFieldList opts structName fs vrest vs).2))
      ∧ (∀ e, ty = .tptr e → v = .vptrNil e → isPrimitiveGoType e = true →
        unmarshalFieldList opts structName ((tag, ty) :: fs) (v :: vrest) vs
          = (.vptr e (zeroValue e) :: (unmarshalFieldList opts structName fs vrest vs).1,
             (unmarshalFieldList opts structName fs vrest vs).2))
      ∧ (∀ e, ty = .tslice e → v = .vsliceNil e →
          tag.CommonOpts.SliceSeparator ≠ .Unspecified →
        unmarshalFieldList opts structName ((tag, ty) :: fs) (v :: vrest) vs
          = (.vslice e [] :: (unmarshalFieldList opts structName fs vrest vs).1,
             (unmarshalFieldList opts structName fs vrest vs).2))) := by
refine ⟨?_, ?_, ?_⟩
· intro h
  simp [unmarshalFieldList, habs, h]
· intro h
  simp [unmarshalFieldList, habs, h]
· intro h
  refine ⟨?_, ?_, ?_⟩
  · intro hprim
    have hstep := unmarshal_none_primitive ty hprim v (NewUnmarshalOptions opts (some tag))
    simp [unmarshalFieldList, habs, h, hstep]
  · intro e hty hv hprim
    subst hty
    subst hv
    have hstep : unmarshal (.tptr e) (.vptrNil e) none (NewUnmarshalOptions opts (some tag))
        = (.vptr e (zeroValue e), none) := by
      have hinner := unmarshal_none_primitive e hprim (zeroValue e)
        (NewUnmarshalOptions opts (some tag))
      simp [unmarshal, typeOf, hinner]
    simp [unmarshalFieldList, habs, h, hstep]
  · intro e hty hv hsep
    subst hty
    subst hv
    have hstep : unmarshal (.tslice e) (.vsliceNil e) none (NewUnmarshalOptions opts (some tag))
        = (.vslice e [], none) := by
      simp [unmarshal, typeOf, NewUnmarshalOptions, split_nil_of_specified _ hsep,
        sliceUnmarshalLoop]
    simp [unmarshalFieldList, habs, h, hstep]

/-- Witness for C2: the three presence policies at concrete absent-key
inputs (an int field under `nil` and `req`, and a nil-pointer int field
under `opt`). -/
theorem claim_c2_witness :
    (unmarshalFieldList NewDefaultUnmarshalerOptions "S"
        [(⟨"x", .MPUnspecified, ⟨.Nil, .OverrideOld, .BreakWithError⟩,
            ⟨.SeparatorNone⟩⟩, .tint 64)] [.vint 64 7] []
      = ([.vint 64 7], none))
    ∧ (unmarshalFieldList NewDefaultUnmarshalerOptions "S"
        [(⟨"x", .MPUnspecified, ⟨.Req, .OverrideOld, .BreakWithError⟩,
            ⟨.SeparatorNone⟩⟩, .tint 64)] [.vint 64 7] []
      = ([.vint 64 7],
         some (.req ("missing required field " ++ quoteStr "x" ++ " in struct S") "x")))
    ∧ (unmarshalFieldList NewDefaultUnmarshalerOptions "S"
        [(⟨"x", .MPUnspecified, ⟨.Opt, .OverrideOld, .BreakWithError⟩,
            ⟨.SeparatorNone⟩⟩, .tptr (.tint 64))] [.vptrNil (.tint 64)] []
      = ([.vptr (.tint 64) (.vint 64 0)], none)) := by
refine ⟨?_, ?_, ?_⟩
· have h := (claim_c2_absent_key_presence_policies NewDefaultUnmarshalerOptions "S"
    ⟨"x", .MPUnspecified, ⟨.Nil, .OverrideOld, .BreakWithError⟩, ⟨.SeparatorNone⟩⟩
    (.tint 64) (.vint 64 7) [] [] [] rfl).1 rfl
  rw [h]
  rfl
· have h := (claim_c2_absent_key_presence_policies NewDefaultUnmarshalerOptions "S"
    ⟨"x", .MPUnspecified, ⟨.Req, .OverrideOld, .BreakWithError⟩, ⟨.SeparatorNone⟩⟩
    (.tint 64) (.vint 64 7) [] [] [] rfl).2.1 rfl
  rw [h]
  rfl
· have h := ((claim_c2_absent_key_presence_policies NewDefaultUnmarshalerOptions "S"
    ⟨"x", .MPUnspecified, ⟨.Opt, .OverrideOld, .BreakWithError⟩, ⟨.SeparatorNone⟩⟩
    (.tptr (.tint 64)) (.vptrNil (.tint 64)) [] [] [] rfl).2.2 rfl).2.1
    (.tint 64) rfl rfl rfl
  rw [h]
  rfl

/-! ### Claim C3: Required-Field errors propagate through embedded structs -/

/-- C3: when unmarshaling an embedded (anonymous) struct field reports a
Required-Field error (and the outer struct's direct fields succeeded), the
outer struct's unmarshal re-wraps it as a Required-Field error naming the
outer struct's Go field, and the wrapped result is still classified as a
required-field condition by IsRequiredFieldError, which returns the outer
field name and ok = true. -/
theorem claim_c3_embedded_required_field_rewrapped
    (opts : UnmarshalerDefaultOptions) (tn : String)
    (fl : List (ParsedTagInfo × GoType)) (vf : List GoValue)
    (goName : String) (sub : StructDesc) (es : List (String × StructDesc))
    (ev : StructVal) (evrest : List StructVal) (vs : Values)
    (hfields : (unmarshalFieldList opts tn fl vf vs).2 = none)
    (ev' : StructVal) (m f : String)
    (hsub : unmarshalStruct sub ev vs opts = (ev', some (.req m f))) :
    unmarshalStruct (.mk tn fl ((goName, sub) :: es)) (.mk vf (ev :: evrest)) vs opts
      = (⟨(unmarshalFieldList opts tn fl vf vs).1, ev' :: evrest⟩,
         some (.req ("embedded field " ++ quoteStr goName ++ " :: " ++ m) goName))
    ∧ IsRequiredFieldError
        (.req ("embedded field " ++ quoteStr goName ++ " :: " ++ m) goName)
      = (goName, true) := by
constructor
· rw [unmarshalStruct]
  simp only [StructVal.fields, StructVal.embedded, hfields]
  rw [unmarshalEmbeddedList]
  simp [hsub, IsRequiredFieldError, errText, hfields]
· rfl

/-- Witness for C3: an outer struct embedding `Inner` whose required field
`x` is missing from an empty input map. -/
theorem claim_c3_witness :
    unmarshalStruct
      (.mk "Outer" []
        [("Inner", .mk "Inner"
          [(⟨"x", .MPUnspecified, ⟨.Req, .OverrideOld, .BreakWithError⟩,
              ⟨.SeparatorNone⟩⟩, .tint 64)] [])])
      (.mk [] [⟨[.vint 64 0], []⟩]) [] NewDefaultUnmarshalerOptions
      = (⟨[], [⟨[.vint 64 0], []⟩]⟩,
         some (.req ("embedded field " ++ quoteStr "Inner" ++ " :: "
           ++ ("missing required field " ++ quoteStr "x" ++ " in struct Inner"))
           "Inner"))
    ∧ IsRequiredFieldError
        (.req ("embedded field " ++ quoteStr "Inner" ++ " :: "
          ++ ("missing required field " ++ quoteStr "x" ++ " in struct Inner"))
          "Inner")
      = ("Inner", true) := by
have h := claim_c3_embedded_required_field_rewrapped NewDefaultUnmarshalerOptions
  "Outer" [] [] "Inner"
  (.mk "Inner"
    [(⟨"x", .MPUnspecified, ⟨.Req, .OverrideOld, .BreakWithError⟩,
        ⟨.SeparatorNone⟩⟩, .tint 64)] [])
  [] ⟨[.vint 64 0], []⟩ [] [] rfl ⟨[.vint 64 0], []⟩
  ("missing required field " ++ quoteStr "x" ++ " in struct Inner") "x"
  (by rw [unmarshalStruct]
      simp [unmarshalFieldList, assocLookup, unmarshalEmbeddedList]
      decide)
exact ⟨h.1, h.2⟩

/-! ### Claim C4: duplicate tag options of one category fail descriptor
construction -/

/-- Substring test on character lists (needle in haystack). -/
def charsContain (hay needle : List Char) : Bool :=
match hay with
| [] => needle = []
| _ :: rest => needle.isPrefixOf hay || charsContain rest needle

/-- `r` is a parse failure whose message names both conflicting values. -/
def failsNamingBoth (r : Except String ParsedTagInfo) (t1 t2 : String) : Bool :=
match r with
| .error m => charsContain m.toList t1.toList && charsContain m.toList t2.toList
| .ok _ => false

/-- Success test for build results. -/
def buildSucceeded {α : Type} : Except String α → Bool
| .ok _ => true
| .error _ => false

/-- The mutually-exclusive tag-option categories and their tokens (the
unmarshal-presence, marshal-presence, slice-merge, slice-unexpected-value and
separator vocabularies). -/
def tagOptionCategories : List (List String) :=
[["opt", "nil", "req"],
 ["keepempty", "omitempty"],
 ["overrideold", "keepold"],
 ["breakwitherror", "skip"],
 ["none", "comma", "semicolon", "space"]]

/-- C4: for every field tag string carrying two option tokens of the same
mutually-exclusive category (in canonical `name,t1,t2` form, for any pair of
the category's tokens including repeats), parsing the tag at
descriptor-build time fails with a duplicate-option error whose message
names both conflicting values, and building a struct descriptor for a type
with such a field fails (no descriptor is produced). -/
theorem claim_c4_duplicate_option_rejected :
    ∀ cat ∈ tagOptionCategories, ∀ t1 ∈ cat, ∀ t2 ∈ cat,
      failsNamingBoth
        (parseFieldTag ("name," ++ t1 ++ "," ++ t2)
          NewUndefinedMarshalTagOptions.InitDefaults
          NewUndefinedUnmarshalTagOptions.InitDefaults
          NewUndefinedCommonTagOptions.InitDefaults) t1 t2 = true
      ∧ buildSucceeded (buildUnmarshalerFields NewDefaultUnmarshalerOptions
          [⟨"F", "name," ++ t1 ++ "," ++ t2, .tint 64, true⟩]) = false := by
decide

/-- Witness for C4: the pair `opt,req` of the unmarshal-presence category. -/
theorem claim_c4_witness :
    failsNamingBoth
      (parseFieldTag "name,opt,req"
        NewUndefinedMarshalTagOptions.InitDefaults
        NewUndefinedUnmarshalTagOptions.InitDefaults
        NewUndefinedCommonTagOptions.InitDefaults) "opt" "req" = true
    ∧ buildSucceeded (buildUnmarshalerFields NewDefaultUnmarshalerOptions
        [⟨"F", "name,opt,req", .tint 64, true⟩]) = false := by
exact claim_c4_duplicate_option_rejected ["opt", "nil", "req"] (by decide)
  "opt" (by decide) "req" (by decide)

/-! ### Slice-loop lemmas (shared by C5 and C6) -/

lemma getD_append_cons {α : Type} (pre : List α) (x : α) (l : List α) (d : α) :
    (pre ++ x :: l).getD pre.length d = x := by
induction pre with
| nil => rfl
| cons p pre ih => simpa using ih

lemma set_append_cons {α : Type} (pre : List α) (x : α) (l : List α) (v : α) :
    (pre ++ x :: l).set pre.length v = pre ++ v :: l := by
induction pre with
| nil => rfl
| cons p pre ih => simp [List.set, ih]

/-- When every element converts successfully, the slice loop writes the
converted values in order after the preserved prefix. -/
lemma sliceUnmarshalLoop_all_ok
    (f : GoValue → Option (List String) → GoValue × Option QsError)
    (z : GoValue) (b : Bool) (vals : List String) (ws : List GoValue)
    (hconv : List.Forall₂ (fun s w => f z (some [s]) = (w, none)) vals ws) :
    ∀ i (pre : List GoValue),
      sliceUnmarshalLoop f z b vals i (pre ++ List.replicate vals.length z) pre.length
        = (pre ++ ws, pre.length + vals.length, none) := by
induction hconv with
| nil =>
  intro i pre
  simp [sliceUnmarshalLoop]
| cons hsw htail ih =>
  rename_i s w vals' ws'
  intro i pre
  rw [List.length_cons, List.replicate_succ, sliceUnmarshalLoop]
  rw [getD_append_cons pre z (List.replicate vals'.length z) z, hsw]
  simp only []
  rw [set_append_cons pre z (List.replicate vals'.length z) w]
  have hre : pre ++ w :: List.replicate vals'.length z
      = (pre ++ [w]) ++ List.replicate vals'.length z := by simp
  have hlen : pre.length + 1 = (pre ++ [w]).length := by simp
  rw [hre, hlen, ih (i + 1) (pre ++ [w])]
  simp [Nat.add_assoc, Nat.add_comm, Nat.add_left_comm]

/-- When a prefix converts successfully and the next element fails under the
stop-on-error policy, the loop stops with the wrapped error naming the
failing input index. -/
lemma sliceUnmarshalLoop_break_error
    (f : GoValue → Option (List String) → GoValue × Option QsError)
    (z : GoValue) (vals1 : List String) (ws1 : List GoValue)
    (x : String) (rest : List String) (v' : GoValue) (err : QsError)
    (hconv : List.Forall₂ (fun s w => f z (some [s]) = (w, none)) vals1 ws1)
    (herr : f z (some [x]) = (v', some err)) :
    ∀ i (pre : List GoValue),
      ∃ s' n',
        sliceUnmarshalLoop f z true (vals1 ++ x :: rest) i
            (pre ++ List.replicate (vals1 ++ x :: rest).length z) pre.length
          = (s', n',
             some (.plain ("error unmarshaling slice index "
               ++ toString (i + vals1.length) ++ " :: " ++ errText err))) := by
induction hconv with
| nil =>
  intro i pre
  rw [List.nil_append, List.length_cons, List.replicate_succ, sliceUnmarshalLoop]
  rw [getD_append_cons pre z (List.replicate rest.length z) z, herr]
  simp [sliceUnmarshalLoop]
| cons hsw htail ih =>
  rename_i s w vals' ws'
  intro i pre
  rw [List.cons_append, List.length_cons, List.replicate_succ, sliceUnmarshalLoop]
  rw [getD_append_cons pre z (List.replicate (vals' ++ x :: rest).length z) z, hsw]
  simp only []
  rw [set_append_cons pre z (List.replicate (vals' ++ x :: rest).length z) w]
  have hre : pre ++ w :: List.replicate (vals' ++ x :: rest).length z
      = (pre ++ [w]) ++ List.replicate (vals' ++ x :: rest).length z := by simp
  have hlen : pre.length + 1 = (pre ++ [w]).length := by simp
  rw [hre, hlen]
  obtain ⟨s', n', hloop⟩ := ih (i + 1) (pre ++ [w])
  refine ⟨s', n', ?_⟩
  rw [hloop]
  have hidx : i + 1 + vals'.length = i + (vals'.length + 1) := by omega
  rw [List.length_cons, hidx]

/-! ### Claim C6: slice merge modes -/

/-- C6: for a slice field holding pre-existing elements `xs`, unmarshaled
from a value list whose elements all convert successfully to `ws` (with the
default `none` separator): under merge-mode keep-and-append the resulting
slice is `xs ++ ws` in original relative order, and under merge-mode
override it is exactly `ws`. -/
theorem claim_c6_slice_merge_modes (e : GoType) (xs : List GoValue)
    (a : List String) (ws : List GoValue) (tag : ParsedTagInfo)
    (sts : List String → Except String String)
    (hsep : tag.CommonOpts.SliceSeparator = .SeparatorNone)
    (hconv : List.Forall₂
      (fun s w => unmarshal e (zeroValue e) (some [s]) ⟨sts, tag⟩ = (w, none)) a ws) :
    (tag.UnmarshalOpts.SliceValues = .KeepOld →
      unmarshal (.tslice e) (.vslice e xs) (some a) ⟨sts, tag⟩
        = (.vslice e (xs ++ ws), none))
    ∧ (tag.UnmarshalOpts.SliceValues = .OverrideOld →
      unmarshal (.tslice e) (.vslice e xs) (some a) ⟨sts, tag⟩
        = (.vslice e ws, none)) := by
have hlen : a.length = ws.length := List.Forall₂.length_eq hconv
constructor
· intro hkeep
  rw [unmarshal]
  simp only [typeOf, ne_eq, not_true_eq_false, if_false, reduceIte,
    Option.getD_some, hsep, splitArrayBySeparatorWithSameOrder, hkeep]
  rw [sliceUnmarshalLoop_all_ok _ _ _ a ws hconv 0 xs]
  simp only []
  have htake : (xs ++ ws).take (xs.length + a.length) = xs ++ ws := by
    rw [hlen, ← List.length_append, List.take_length]
  rw [htake]
· intro hover
  rw [unmarshal]
  simp only [typeOf, ne_eq, not_true_eq_false, if_false, reduceIte, reduceCtorEq,
    Option.getD_some, hsep, splitArrayBySeparatorWithSameOrder, hover]
  have h0 := sliceUnmarshalLoop_all_ok
    (fun v' a' => unmarshal e v' a' ⟨sts, tag⟩) (zeroValue e)
    (decide (tag.UnmarshalOpts.SliceUnexpectedValue = .BreakWithError))
    a ws hconv 0 []
  simp only [List.nil_append, List.length_nil] at h0
  rw [h0]
  simp only []
  rw [Nat.zero_add, hlen, List.take_length]

/-- Witness for C6: a pre-populated int64 slice `[9]` receiving `["5","6"]`
under keep-and-append. -/
theorem claim_c6_witness :
    unmarshal (.tslice (.tint 64)) (.vslice (.tint 64) [.vint 64 9])
      (some ["5", "6"])
      ⟨defaultSliceToString,
        ⟨"a", .KeepEmpty, ⟨.Opt, .KeepOld, .BreakWithError⟩, ⟨.SeparatorNone⟩⟩⟩
      = (.vslice (.tint 64) [.vint 64 9, .vint 64 5, .vint 64 6], none) := by
have h := (claim_c6_slice_merge_modes (.tint 64) [.vint 64 9] ["5", "6"]
  [.vint 64 5, .vint 64 6]
  ⟨"a", .KeepEmpty, ⟨.Opt, .KeepOld, .BreakWithError⟩, ⟨.SeparatorNone⟩⟩
  defaultSliceToString rfl
  (by
    refine List.Forall₂.cons ?_ (List.Forall₂.cons ?_ List.Forall₂.nil)
    · rw [unmarshal]
      simp [primitiveUnmarshal, defaultSliceToString, unmarshalInt, zeroValue]
      rw [show goParseInt "5" 0 64 = Except.ok 5 from rfl]
    · rw [unmarshal]
      simp [primitiveUnmarshal, defaultSliceToString, unmarshalInt, zeroValue]
      rw [show goParseInt "6" 0 64 = Except.ok 6 from rfl])).1 rfl
rw [h]
rfl

/-! ### Claim C5: slice unexpected-value policies -/

lemma goParseInt_one {w : Nat} (hw : w ∈ [8, 16, 32, 64]) :
    goParseInt "1" 0 w = .ok 1 := by
simp only [List.mem_cons, List.not_mem_nil, or_false] at hw
rcases hw with rfl | rfl | rfl | rfl <;> rfl

lemma goParseInt_three {w : Nat} (hw : w ∈ [8, 16, 32, 64]) :
    goParseInt "3" 0 w = .ok 3 := by
simp only [List.mem_cons, List.not_mem_nil, or_false] at hw
rcases hw with rfl | rfl | rfl | rfl <;> rfl

lemma goParseInt_x {w : Nat} (hw : w ∈ [8, 16, 32, 64]) :
    goParseInt "x" 0 w = .error .syntaxErr := by
simp only [List.mem_cons, List.not_mem_nil, or_false] at hw
rcases hw with rfl | rfl | rfl | rfl <;> rfl

lemma unmarshal_int_elem_ok (w : Nat) (s : String) (k : Int)
    (hp : goParseInt s 0 w = .ok k) (tag : ParsedTagInfo) :
    unmarshal (.tint w) (.vint w 0) (some [s]) ⟨defaultSliceToString, tag⟩
      = (.vint w k, none) := by
rw [unmarshal]
simp [primitiveUnmarshal, defaultSliceToString, unmarshalInt, hp]

lemma unmarshal_int_elem_err (w : Nat) (s : String) (e : ParseErr)
    (hp : goParseInt s 0 w = .error e) (tag : ParsedTagInfo) :
    unmarshal (.tint w) (.vint w 0) (some [s]) ⟨defaultSliceToString, tag⟩
      = (.vint w 0, some (.plain (numErrorText "ParseInt" s e))) := by
rw [unmarshal]
simp [primitiveUnmarshal, defaultSliceToString, unmarshalInt, hp]

/-- C5: unmarshaling the value list `["1","x","3"]` into an integer-slice
field (separator `none`): under the stop-on-error policy the call returns
the wrapped parse error for input index 1 and the resulting slice is empty —
length 0, dropping also any previously held elements, under either merge
mode; under the skip-bad-values policy (with the default override merge
mode) the call succeeds and the resulting slice is exactly `[1, 3]` in that
order. -/
theorem claim_c5_unexpected_value_policies (w : Nat) (hw : w ∈ [8, 16, 32, 64])
    (old : GoValue) (hold : typeOf old = .tslice (.tint w)) (tag : ParsedTagInfo)
    (hsep : tag.CommonOpts.SliceSeparator = .SeparatorNone) :
    (tag.UnmarshalOpts.SliceUnexpectedValue = .BreakWithError →
      unmarshal (.tslice (.tint w)) old (some ["1", "x", "3"])
          ⟨defaultSliceToString, tag⟩
        = (.vslice (.tint w) [],
           some (.plain ("error unmarshaling slice index " ++ toString 1 ++ " :: "
             ++ numErrorText "ParseInt" "x" .syntaxErr))))
    ∧ (tag.UnmarshalOpts.SliceUnexpectedValue = .Skip →
       tag.UnmarshalOpts.SliceValues = .OverrideOld →
      unmarshal (.tslice (.tint w)) old (some ["1", "x", "3"])
          ⟨defaultSliceToString, tag⟩
        = (.vslice (.tint w) [.vint w 1, .vint w 3], none)) := by
have h1 := unmarshal_int_elem_ok w "1" 1 (goParseInt_one hw) tag
have h3 := unmarshal_int_elem_ok w "3" 3 (goParseInt_three hw) tag
have hx := unmarshal_int_elem_err w "x" .syntaxErr (goParseInt_x hw) tag
have hconv1 : List.Forall₂
    (fun s k => (fun v' a' => unmarshal (.tint w) v' a' ⟨defaultSliceToString, tag⟩)
      (GoValue.vint w 0) (some [s]) = (k, none)) ["1"] [.vint w 1] :=
  List.Forall₂.cons h1 List.Forall₂.nil
have hold' : old = .vsliceNil (.tint w) ∨ ∃ xs, old = .vslice (.tint w) xs := by
  cases old <;> simp [typeOf] at hold
  · exact Or.inl (by rw [hold])
  · next e xs => exact Or.inr ⟨xs, by rw [hold]⟩
constructor
· intro hpol
  obtain ⟨s', n', hloop⟩ := sliceUnmarshalLoop_break_error
    (fun v' a' => unmarshal (.tint w) v' a' ⟨defaultSliceToString, tag⟩)
    (GoValue.vint w 0) ["1"] [.vint w 1] "x" ["3"] (.vint w 0)
    (.plain (numErrorText "ParseInt" "x" .syntaxErr)) hconv1 hx 0 []
  simp only [List.singleton_append, List.nil_append, List.length_nil,
    List.length_cons, Nat.zero_add, Nat.reduceAdd, errText] at hloop
  rcases hold' with rfl | ⟨xs, rfl⟩
  · rw [unmarshal]
    simp only [typeOf, ne_eq, not_true_eq_false, if_false, reduceIte,
      Option.getD_some, hsep, splitArrayBySeparatorWithSameOrder, hpol,
      decide_True, zeroValue, List.length_cons, List.length_nil,
      Nat.zero_add, Nat.reduceAdd]
    rw [hloop]
  · rw [unmarshal]
    simp only [typeOf, ne_eq, not_true_eq_false, if_false, reduceIte,
      Option.getD_some, hsep, splitArrayBySeparatorWithSameOrder, hpol,
      decide_True, zeroValue, List.length_cons, List.length_nil,
      Nat.zero_add, Nat.reduceAdd]
    cases hsv : tag.UnmarshalOpts.SliceValues with
    | KeepOld =>
      simp only [reduceIte]
      obtain ⟨s2, n2, hloop2⟩ := sliceUnmarshalLoop_break_error
        (fun v' a' => unmarshal (.tint w) v' a' ⟨defaultSliceToString, tag⟩)
        (GoValue.vint w 0) ["1"] [.vint w 1] "x" ["3"] (.vint w 0)
        (.plain (numErrorText "ParseInt" "x" .syntaxErr)) hconv1 hx 0 xs
      simp only [List.singleton_append, List.length_cons, List.length_nil,
        Nat.zero_add, Nat.reduceAdd, errText] at hloop2
      rw [hloop2]
    | OverrideOld =>
      simp only [reduceCtorEq, reduceIte]
      rw [hloop]
    | UPUnspecified =>
      simp only [reduceCtorEq, reduceIte]
      rw [hloop]
· intro hpol hover
  have hskip : decide (tag.UnmarshalOpts.SliceUnexpectedValue
      = UnmarshalSliceUnexpectedValue.BreakWithError) = false := by
    simp [hpol]
  have hloop : sliceUnmarshalLoop
      (fun v' a' => unmarshal (.tint w) v' a' ⟨defaultSliceToString, tag⟩)
      (GoValue.vint w 0) false ["1", "x", "3"] 0
      (List.replicate 3 (GoValue.vint w 0)) 0
      = ([.vint w 1, .vint w 3, .vint w 0], 2, none) := by
    simp [sliceUnmarshalLoop, h1, hx, h3, List.getD]
  rcases hold' with rfl | ⟨xs, rfl⟩
  · rw [unmarshal]
    simp only [typeOf, ne_eq, not_true_eq_false, if_false, reduceIte,
      Option.getD_some, hsep, splitArrayBySeparatorWithSameOrder, hskip, zeroValue]
    rw [show (List.replicate (["1", "x", "3"] : List String).length (GoValue.vint w 0))
        = List.replicate 3 (GoValue.vint w 0) from rfl, hloop]
    rfl
  · rw [unmarshal]
    simp only [typeOf, ne_eq, not_true_eq_false, if_false, reduceIte, reduceCtorEq,
      Option.getD_some, hsep, splitArrayBySeparatorWithSameOrder, hskip, hover,
      zeroValue]
    rw [show (List.replicate (["1", "x", "3"] : List String).length (GoValue.vint w 0))
        = List.replicate 3 (GoValue.vint w 0) from rfl, hloop]
    rfl

/-- Witness for C5: an int64 slice holding `[9]` under stop-on-error, and a
nil int64 slice under skip-bad-values, both fed `["1","x","3"]`. -/
theorem claim_c5_witness :
    (unmarshal (.tslice (.tint 64)) (.vslice (.tint 64) [.vint 64 9])
        (some ["1", "x", "3"])
        ⟨defaultSliceToString,
          ⟨"a", .KeepEmpty, ⟨.Opt, .OverrideOld, .BreakWithError⟩, ⟨.SeparatorNone⟩⟩⟩
      = (.vslice (.tint 64) [],
         some (.plain ("error unmarshaling slice index " ++ toString 1 ++ " :: "
           ++ numErrorText "ParseInt" "x" .syntaxErr))))
    ∧ (unmarshal (.tslice (.tint 64)) (.vsliceNil (.tint 64))
        (some ["1", "x", "3"])
        ⟨defaultSliceToString,
          ⟨"a", .KeepEmpty, ⟨.Opt, .OverrideOld, .Skip⟩, ⟨.SeparatorNone⟩⟩⟩
      = (.vslice (.tint 64) [.vint 64 1, .vint 64 3], none)) := by
constructor
· exact (claim_c5_unexpected_value_policies 64 (by decide)
    (.vslice (.tint 64) [.vint 64 9]) rfl
    ⟨"a", .KeepEmpty, ⟨.Opt, .OverrideOld, .BreakWithError⟩, ⟨.SeparatorNone⟩⟩
    rfl).1 rfl
· exact (claim_c5_unexpected_value_policies 64 (by decide)
    (.vsliceNil (.tint 64)) rfl
    ⟨"a", .KeepEmpty, ⟨.Opt, .OverrideOld, .Skip⟩, ⟨.SeparatorNone⟩⟩
    rfl).2 rfl rfl

/-! ### Claim C7: map unmarshaling (corrected: the target map is not cleared) -/

/-- C7 counterexample: a pre-populated non-nil target map is NOT
cleared/allocated before conversion begins — unmarshaling the input
`{"b": ["2"]}` into the map `{"a": 1}` keeps the stale entry `"a"` (whose key
is absent from the input), contradicting the claim that the target map is
cleared before conversion. -/
theorem claim_c7_counterexample :
    mapUnmarshalValues (.tint 64) (some [("a", .vint 64 1)]) [("b", ["2"])]
        NewDefaultUnmarshalerOptions
      = ([("a", .vint 64 1), ("b", .vint 64 2)], none)
    ∧ assocLookup (mapUnmarshalValues (.tint 64) (some [("a", .vint 64 1)])
        [("b", ["2"])] NewDefaultUnmarshalerOptions).1 "a" = some (.vint 64 1) := by
have h2 : unmarshal (.tint 64) (.vint 64 0) (some ["2"])
    (NewUnmarshalOptions NewDefaultUnmarshalerOptions none) = (.vint 64 2, none) := by
  rw [unmarshal]
  simp [primitiveUnmarshal, NewUnmarshalOptions, NewDefaultUnmarshalerOptions,
    defaultSliceToString, unmarshalInt]
  rw [show goParseInt "2" 0 64 = Except.ok 2 from rfl]
constructor
· simp [mapUnmarshalValues, mapUnmarshalLoop, zeroValue, h2, assocSet, assocLookup]
· simp [mapUnmarshalValues, mapUnmarshalLoop, zeroValue, h2, assocSet, assocLookup]

lemma mapUnmarshalLoop_all_ok (e : GoType) (opts : UnmarshalerDefaultOptions)
    (vs : Values) (ws : List GoValue)
    (hconv : List.Forall₂ (fun (p : String × List String) w =>
      unmarshal e (zeroValue e) (some p.2) (NewUnmarshalOptions opts none)
        = (w, none)) vs ws) :
    ∀ m, mapUnmarshalLoop e opts vs m
      = ((vs.zip ws).foldl (fun acc pw => assocSet acc pw.1.1 pw.2) m, none) := by
induction hconv with
| nil => intro m; simp [mapUnmarshalLoop]
| cons hpw htail ih =>
  rename_i p w vs' ws'
  intro m
  obtain ⟨k, a⟩ := p
  rw [mapUnmarshalLoop]
  simp only at hpw
  rw [hpw]
  simp only []
  rw [ih (assocSet m k w)]
  simp [List.zip]

lemma mapUnmarshalLoop_first_error (e : GoType) (opts : UnmarshalerDefaultOptions)
    (pre : Values) (ws : List GoValue) (k : String) (a : List String)
    (rest : Values) (v' : GoValue) (err : QsError)
    (hconv : List.Forall₂ (fun (p : String × List String) w =>
      unmarshal e (zeroValue e) (some p.2) (NewUnmarshalOptions opts none)
        = (w, none)) pre ws)
    (herr : unmarshal e (zeroValue e) (some a) (NewUnmarshalOptions opts none)
      = (v', some err)) :
    ∀ m, (mapUnmarshalLoop e opts (pre ++ (k, a) :: rest) m).2
      = some (.plain ("error unmarshaling key " ++ quoteStr k ++ " :: "
          ++ errText err)) := by
induction hconv with
| nil =>
  intro m
  rw [List.nil_append, mapUnmarshalLoop]
  rw [herr]
| cons hpw htail ih =>
  rename_i p w vs' ws'
  intro m
  obtain ⟨k', a'⟩ := p
  rw [List.cons_append, mapUnmarshalLoop]
  simp only at hpw
  rw [hpw]
  simp only []
  exact ih (assocSet m k' w)

/-- C7 amended: when unmarshaling into a map with string keys, a nil target
map is allocated empty, but a non-nil target map is NOT cleared — its
pre-existing entries are retained (and overwritten per key). Every input
key's value list is converted via the element converter into a fresh zero
element and inserted under its string key; a conversion failure of any
single value fails the whole call. -/
theorem claim_c7_amended_map_unmarshal (e : GoType)
    (opts : UnmarshalerDefaultOptions) (m0 : List (String × GoValue)) :
    (∀ vs, mapUnmarshalValues e none vs opts = mapUnmarshalValues e (some []) vs opts)
    ∧ (∀ (vs : Values) (ws : List GoValue),
      List.Forall₂ (fun (p : String × List String) w =>
        unmarshal e (zeroValue e) (some p.2) (NewUnmarshalOptions opts none)
          = (w, none)) vs ws →
      mapUnmarshalValues e (some m0) vs opts
        = ((vs.zip ws).foldl (fun acc pw => assocSet acc pw.1.1 pw.2) m0, none))
    ∧ (∀ (pre : Values) (ws : List GoValue) (k : String) (a : List String)
        (rest : Values) (v' : GoValue) (err : QsError),
      List.Forall₂ (fun (p : String × List String) w =>
        unmarshal e (zeroValue e) (some p.2) (NewUnmarshalOptions opts none)
          = (w, none)) pre ws →
      unmarshal e (zeroValue e) (some a) (NewUnmarshalOptions opts none)
        = (v', some err) →
      (mapUnmarshalValues e (some m0) (pre ++ (k, a) :: rest) opts).2
        = some (.plain ("error unmarshaling key " ++ quoteStr k ++ " :: "
            ++ errText err))) := by
refine ⟨fun vs => rfl, ?_, ?_⟩
· intro vs ws hconv
  exact mapUnmarshalLoop_all_ok e opts vs ws hconv m0
· intro pre ws k a rest v' err hconv herr
  exact mapUnmarshalLoop_first_error e opts pre ws k a rest v' err hconv herr m0

/-- Witness for the amended C7: converting `{"b": ["2"]}` into the
pre-populated map `{"a": 1}` retains `"a"` and inserts `"b"`; converting
`{"b": ["x"]}` fails the whole call. -/
theorem claim_c7_witness :
    mapUnmarshalValues (.tint 64) (some [("a", .vint 64 1)]) [("b", ["2"])]
        NewDefaultUnmarshalerOptions
      = ([("a", .vint 64 1), ("b", .vint 64 2)], none)
    ∧ (mapUnmarshalValues (.tint 64) (some [("a", .vint 64 1)]) [("b", ["x"])]
        NewDefaultUnmarshalerOptions).2
      = some (.plain ("error unmarshaling key " ++ quoteStr "b" ++ " :: "
          ++ errText (.plain (numErrorText "ParseInt" "x" .syntaxErr)))) := by
have h2 : unmarshal (.tint 64) (.vint 64 0) (some ["2"])
    (NewUnmarshalOptions NewDefaultUnmarshalerOptions none) = (.vint 64 2, none) := by
  rw [unmarshal]
  simp [primitiveUnmarshal, NewUnmarshalOptions, NewDefaultUnmarshalerOptions,
    defaultSliceToString, unmarshalInt]
  rw [show goParseInt "2" 0 64 = Except.ok 2 from rfl]
have hx : unmarshal (.tint 64) (.vint 64 0) (some ["x"])
    (NewUnmarshalOptions NewDefaultUnmarshalerOptions none)
    = (.vint 64 0, some (.plain (numErrorText "ParseInt" "x" .syntaxErr))) := by
  rw [unmarshal]
  simp [primitiveUnmarshal, NewUnmarshalOptions, NewDefaultUnmarshalerOptions,
    defaultSliceToString, unmarshalInt]
  rw [show goParseInt "x" 0 64 = Except.error .syntaxErr from rfl]
constructor
· have h := (claim_c7_amended_map_unmarshal (.tint 64) NewDefaultUnmarshalerOptions
    [("a", .vint 64 1)]).2.1 [("b", ["2"])] [.vint 64 2]
    (List.Forall₂.cons h2 List.Forall₂.nil)
  rw [h]
  rfl
· exact (claim_c7_amended_map_unmarshal (.tint 64) NewDefaultUnmarshalerOptions
    [("a", .vint 64 1)]).2.2 [] [] "b" ["x"] [] (.vint 64 0)
    (.plain (numErrorText "ParseInt" "x" .syntaxErr)) List.Forall₂.nil hx

/-! ### Claim C8: marshal presence (corrected: keepempty does not always
produce an entry) -/

/-- C8 counterexample: a `keepempty` field holding a nil pointer (a zero
value) produces NO entry — its converter yields zero strings and the struct
marshaler skips empty outputs — contradicting the claim that keepempty
always produces an entry even for zero values. -/
theorem claim_c8_counterexample :
    marshalStruct
      (.mk "T" [(⟨"p", .KeepEmpty, NewUndefinedUnmarshalTagOptions,
          ⟨.SeparatorNone⟩⟩, .tptr (.tint 64))] [])
      ⟨[.vptrNil (.tint 64)], []⟩ = .ok [] := by
rw [marshalStruct]
rw [marshalFieldList]
simp [marshalValue, isEmpty, marshalFieldList, marshalEmbeddedList]

lemma marshalValue_primitive_single (ty : GoType) (fv : GoValue)
    (hprim : isPrimitiveGoType ty = true) (hty : typeOf fv = ty) :
    ∃ s, marshalValue ty fv = .ok [s] := by
cases ty <;> simp [isPrimitiveGoType] at hprim <;>
  cases fv <;> simp [typeOf] at hty <;> simp [marshalValue]

/-- C8 amended: a field tagged omitempty whose value is empty (nil pointer,
false bool, numeric 0, string/slice of length 0) produces no entry for the
field's key; a field tagged keepempty produces an entry exactly when its
converter yields at least one string — which is always the case for fields
of primitive kind, including zero values — while a keepempty field whose
converter yields no strings (such as a nil pointer or an empty slice)
produces no entry. -/
theorem claim_c8_amended_marshal_presence (tag : ParsedTagInfo) (ty : GoType)
    (fv : GoValue) (tn : String) :
    (tag.MarshalPresence = .OmitEmpty → isEmpty fv = true →
      marshalStruct (.mk tn [(tag, ty)] []) ⟨[fv], []⟩ = .ok [])
    ∧ (tag.MarshalPresence = .KeepEmpty → isPrimitiveGoType ty = true →
        typeOf fv = ty →
      ∃ s, marshalValue ty fv = .ok [s] ∧
        marshalStruct (.mk tn [(tag, ty)] []) ⟨[fv], []⟩ = .ok [(tag.Name, [s])])
    ∧ (tag.MarshalPresence = .KeepEmpty → marshalValue ty fv = .ok [] →
      marshalStruct (.mk tn [(tag, ty)] []) ⟨[fv], []⟩ = .ok []) := by
refine ⟨?_, ?_, ?_⟩
· intro hp he
  rw [marshalStruct]
  rw [marshalFieldList]
  simp [hp, he, marshalFieldList, marshalEmbeddedList]
· intro hp hprim hty
  obtain ⟨s, hs⟩ := marshalValue_primitive_single ty fv hprim hty
  refine ⟨s, hs, ?_⟩
  rw [marshalStruct]
  rw [marshalFieldList]
  simp [hp, hs, marshalFieldList, marshalEmbeddedList, assocSet]
· intro hp hs
  rw [marshalStruct]
  rw [marshalFieldList]
  simp [hp, hs, marshalFieldList, marshalEmbeddedList]

/-- Witness for the amended C8: an omitempty zero int produces no entry; a
keepempty zero int produces the entry `x = "0"`. -/
theorem claim_c8_witness :
    marshalStruct
      (.mk "T" [(⟨"x", .OmitEmpty, NewUndefinedUnmarshalTagOptions,
          ⟨.SeparatorNone⟩⟩, .tint 64)] []) ⟨[.vint 64 0], []⟩ = .ok []
    ∧ marshalStruct
      (.mk "T" [(⟨"x", .KeepEmpty, NewUndefinedUnmarshalTagOptions,
          ⟨.SeparatorNone⟩⟩, .tint 64)] []) ⟨[.vint 64 0], []⟩
      = .ok [("x", ["0"])] := by
constructor
· exact (claim_c8_amended_marshal_presence
    ⟨"x", .OmitEmpty, NewUndefinedUnmarshalTagOptions, ⟨.SeparatorNone⟩⟩
    (.tint 64) (.vint 64 0) "T").1 rfl rfl
· obtain ⟨s, hs, hres⟩ := (claim_c8_amended_marshal_presence
    ⟨"x", .KeepEmpty, NewUndefinedUnmarshalTagOptions, ⟨.SeparatorNone⟩⟩
    (.tint 64) (.vint 64 0) "T").2.1 rfl rfl rfl
  have hs0 : s = "0" := by
    have : marshalValue (.tint 64) (.vint 64 0) = .ok ["0"] := by
      rw [marshalValue]
      rfl
    rw [this] at hs
    simpa using hs.symm
  rw [hs0] at hres
  exact hres

/-! ### Claim C1: scalar round-trip (corrected: encoded keys can collide) -/

/-- Scalar well-formedness: the value matches the field type's kind, the
integer width is one of Go's widths (with `int` as 64), and the value is
within the width's range (Go values are so by construction). -/
def scalarOk : GoType → GoValue → Bool
| .tstr, .vstr _ => true
| .tbool, .vbool _ => true
| .tint w, .vint w' x =>
  w' == w && (w == 8 || w == 16 || w == 32 || w == 64)
    && decide (-(2 ^ (w - 1) : Int) ≤ x) && decide (x < (2 ^ (w - 1) : Int))
| .tuint w, .vuint w' x =>
  w' == w && (w == 8 || w == 16 || w == 32 || w == 64) && decide (x < 2 ^ w)
| .tfloat w, .vfloat w' _ => w' == w
| _, _ => false

/-- The single string a scalar value marshals to. -/
def fmtScalar : GoValue → String
| .vstr s => s
| .vbool b => goFormatBool b
| .vint _ x => goFormatInt x
| .vuint _ x => goFormatUint x
| .vfloat _ f => f.canonical
| _ => ""

/-- The ParsedTagInfo a field with an empty qs tag receives in the marshal
pipeline under default options (keepempty; unmarshal categories undefined). -/
def defaultMarshalFieldTag (nm : String) : ParsedTagInfo :=
⟨nm, .KeepEmpty, NewUndefinedUnmarshalTagOptions, ⟨.SeparatorNone⟩⟩

/-- The ParsedTagInfo a field with an empty qs tag receives in the unmarshal
pipeline under default options (opt presence, override merge, stop-on-error;
marshal presence undefined). -/
def defaultUnmarshalFieldTag (nm : String) : ParsedTagInfo :=
⟨nm, .MPUnspecified, ⟨.Opt, .OverrideOld, .BreakWithError⟩, ⟨.SeparatorNone⟩⟩

lemma scalar_marshalValue (t : GoType) (v : GoValue) (hok : scalarOk t v = true) :
    marshalValue t v = .ok [fmtScalar v] := by
cases t <;> cases v <;>
  first
  | (rw [marshalValue]; rfl)
  | exact absurd hok (by simp [scalarOk])

lemma scalar_unmarshal_roundtrip (t : GoType) (v : GoValue)
    (hok : scalarOk t v = true) (tag : ParsedTagInfo) :
    unmarshal t (zeroValue t) (some [fmtScalar v]) ⟨defaultSliceToString, tag⟩
      = (v, none) := by
cases t <;> cases v <;>
  try exact absurd hok Bool.false_ne_true
case tstr.vstr s =>
  rw [unmarshal]
  simp [primitiveUnmarshal, defaultSliceToString, zeroValue, unmarshalString, fmtScalar]
case tbool.vbool b =>
  rw [unmarshal]
  simp [primitiveUnmarshal, defaultSliceToString, zeroValue, unmarshalBool, fmtScalar,
    goParseBool_goFormatBool]
case tint.vint w w' x =>
  simp only [scalarOk, Bool.and_eq_true, beq_iff_eq, Bool.or_eq_true,
    decide_eq_true_eq] at hok
  obtain ⟨⟨⟨hw', hwset⟩, hlo⟩, hhi⟩ := hok
  subst hw'
  have hwset' : w' = 8 ∨ w' = 16 ∨ w' = 32 ∨ w' = 64 := by tauto
  have hw1 : 0 < w' := by rcases hwset' with rfl | rfl | rfl | rfl <;> norm_num
  have hw2 : w' ≤ 64 := by rcases hwset' with rfl | rfl | rfl | rfl <;> norm_num
  have hp := goParseInt_goFormatInt x w' hw1 hw2 hlo hhi
  rw [unmarshal]
  simp [primitiveUnmarshal, defaultSliceToString, zeroValue, unmarshalInt, fmtScalar, hp]
case tuint.vuint w w' x =>
  simp only [scalarOk, Bool.and_eq_true, beq_iff_eq, Bool.or_eq_true,
    decide_eq_true_eq] at hok
  obtain ⟨⟨hw', hwset⟩, hhi⟩ := hok
  subst hw'
  have hwset' : w' = 8 ∨ w' = 16 ∨ w' = 32 ∨ w' = 64 := by tauto
  have hwne : ¬ w' = 0 := by rcases hwset' with rfl | rfl | rfl | rfl <;> norm_num
  have hp : goParseUint (goFormatUint x) 0 w' = .ok x := by
    refine goParseUint_goFormatUint x w' ?_
    rw [if_neg hwne]
    omega
  rw [unmarshal]
  simp [primitiveUnmarshal, defaultSliceToString, zeroValue, unmarshalUint, fmtScalar, hp]
case tfloat.vfloat w w' f =>
  simp only [scalarOk, beq_iff_eq] at hok
  subst hok
  rw [unmarshal]
  cases f
  simp [primitiveUnmarshal, defaultSliceToString, zeroValue, unmarshalFloat, fmtScalar]

lemma assocLookup_append_left_none {κ β : Type} [DecidableEq κ]
    (pre l : List (κ × β)) (k : κ) (h : assocLookup pre k = none) :
    assocLookup (pre ++ l) k = assocLookup l k := by
induction pre with
| nil => rfl
| cons p rest ih =>
  obtain ⟨k', b'⟩ := p
  by_cases hk : k' = k
  · simp [assocLookup, hk] at h
  · simp only [assocLookup, hk, if_false, reduceIte] at h ⊢
    exact ih h

/-- The marshal loop over scalar keepempty fields appends one entry per
field (in order) to an accumulator containing none of the field keys. -/
lemma marshal_scalar_fieldList :
    ∀ (flds : List (String × GoType)) (xs : List GoValue),
    List.Forall₂ (fun (p : String × GoType) v => scalarOk p.2 v = true) flds xs →
    (flds.map Prod.fst).Nodup →
    ∀ acc : Values, (∀ p ∈ flds, assocLookup acc p.1 = none) →
    marshalFieldList (flds.map fun p => (defaultMarshalFieldTag p.1, p.2)) xs acc
      = .ok (acc ++ (flds.zip xs).map fun pv => (pv.1.1, [fmtScalar pv.2])) := by
intro flds xs hmatch
induction hmatch with
| nil =>
  intro _ acc _
  simp [marshalFieldList]
| cons hpv htail ih =>
  rename_i p v rest xs'
  intro hnd acc hfresh
  obtain ⟨nm, ty⟩ := p
  simp only at hpv
  simp only [List.map_cons, List.zip_cons_cons]
  rw [marshalFieldList]
  rw [if_neg (by simp [defaultMarshalFieldTag])]
  rw [scalar_marshalValue ty v hpv]
  simp only []
  rw [if_pos (by simp : ([fmtScalar v] : List String).length ≠ 0)]
  have hname : (defaultMarshalFieldTag nm).Name = nm := rfl
  rw [hname]
  have hacc : assocSet acc nm [fmtScalar v] = acc ++ [(nm, [fmtScalar v])] :=
    assocSet_append_of_lookup_none acc nm [fmtScalar v]
      (hfresh (nm, ty) (List.mem_cons_self _ _))
  rw [hacc]
  have hnd' : (rest.map Prod.fst).Nodup := by
    simp only [List.map_cons, List.nodup_cons] at hnd
    exact hnd.2
  have hnotin : nm ∉ rest.map Prod.fst := by
    simp only [List.map_cons, List.nodup_cons] at hnd
    exact hnd.1
  have hfresh' : ∀ q ∈ rest, assocLookup (acc ++ [(nm, [fmtScalar v])]) q.1 = none := by
    intro q hq
    have h1 : assocLookup acc q.1 = none := hfresh q (List.mem_cons_of_mem _ hq)
    rw [assocLookup_append_left_none acc _ q.1 h1]
    have hne : ¬ nm = q.1 := by
      intro he
      exact hnotin (he ▸ List.mem_map_of_mem Prod.fst hq)
    simp [assocLookup, hne]
  rw [ih hnd' (acc ++ [(nm, [fmtScalar v])]) hfresh']
  simp

/-- In the map produced by marshaling distinct-keyed scalar fields, every
field key looks up to its own formatted value. -/
lemma forall2_lookup_built :
    ∀ (flds : List (String × GoType)) (xs : List GoValue) (pre : Values),
    flds.length = xs.length → (flds.map Prod.fst).Nodup →
    (∀ p ∈ flds, assocLookup pre p.1 = none) →
    List.Forall₂ (fun (p : String × GoType) (v : GoValue) =>
      assocLookup (pre ++ (flds.zip xs).map fun pv => (pv.1.1, [fmtScalar pv.2])) p.1
        = some [fmtScalar v]) flds xs := by
intro flds
induction flds with
| nil =>
  intro xs pre hlen _ _
  cases xs with
  | nil => exact List.Forall₂.nil
  | cons v xs' => simp at hlen
| cons p rest ih =>
  intro xs pre hlen hnd hfresh
  cases xs with
  | nil => simp at hlen
  | cons v xs' =>
    obtain ⟨nm, ty⟩ := p
    simp only [List.zip_cons_cons, List.map_cons]
    have hnotin : nm ∉ rest.map Prod.fst := by
      simp only [List.map_cons, List.nodup_cons] at hnd
      exact hnd.1
    have hnd' : (rest.map Prod.fst).Nodup := by
      simp only [List.map_cons, List.nodup_cons] at hnd
      exact hnd.2
    constructor
    · rw [assocLookup_append_left_none pre _ nm
        (hfresh (nm, ty) (List.mem_cons_self _ _))]
      simp [assocLookup]
    · have hfresh' : ∀ q ∈ rest, assocLookup (pre ++ [(nm, [fmtScalar v])]) q.1 = none := by
        intro q hq
        rw [assocLookup_append_left_none pre _ q.1 (hfresh q (List.mem_cons_of_mem _ hq))]
        have hne : ¬ nm = q.1 := by
          intro he
          exact hnotin (he ▸ List.mem_map_of_mem Prod.fst hq)
        simp [assocLookup, hne]
      have h := ih xs' (pre ++ [(nm, [fmtScalar v])]) (by simpa using hlen) hnd' hfresh'
      refine h.imp ?_
      intro a b hab
      rw [List.append_assoc] at hab
      simpa using hab

/-- The unmarshal loop over scalar opt fields, run against a map where every
field key holds its marshaled value, restores exactly the original values. -/
lemma unmarshal_scalar_fieldList (opts : UnmarshalerDefaultOptions)
    (hsts : opts.SliceToString = defaultSliceToString) (tn : String) :
    ∀ (flds : List (String × GoType)) (xs : List GoValue) (full : Values),
    List.Forall₂ (fun (p : String × GoType) v => scalarOk p.2 v = true) flds xs →
    List.Forall₂ (fun (p : String × GoType) (v : GoValue) =>
      assocLookup full p.1 = some [fmtScalar v]) flds xs →
    unmarshalFieldList opts tn (flds.map fun p => (defaultUnmarshalFieldTag p.1, p.2))
      (flds.map fun p => zeroValue p.2) full = (xs, none) := by
intro flds xs full hmatch
induction hmatch with
| nil =>
  intro _
  simp [unmarshalFieldList]
| cons hpv htail ih =>
  rename_i p v rest xs'
  intro hlook
  obtain ⟨hlk, hlook'⟩ := List.forall₂_cons.mp hlook
  obtain ⟨nm, ty⟩ := p
  simp only at hpv hlk
  have hstep : unmarshal ty (zeroValue ty) (some [fmtScalar v])
      (NewUnmarshalOptions opts (some (defaultUnmarshalFieldTag nm))) = (v, none) := by
    show unmarshal ty (zeroValue ty) (some [fmtScalar v])
      ⟨opts.SliceToString, defaultUnmarshalFieldTag nm⟩ = (v, none)
    rw [hsts]
    exact scalar_unmarshal_roundtrip ty v hpv (defaultUnmarshalFieldTag nm)
  simp only [List.map_cons]
  have hname : (defaultUnmarshalFieldTag nm).Name = nm := rfl
  simp [unmarshalFieldList, hname, hlk, hstep, ih hlook']

/-- C1 amended: for every struct whose exported fields are all of scalar
kinds with default tag options AND whose encoded field keys are pairwise
distinct, unmarshaling the map produced by marshaling a value into a fresh
zero value of the same struct reproduces the value exactly, including
zero-valued fields. (The distinctness hypothesis is forced by the
counterexample: the default snake_case name transform can map distinct Go
field names to one key.) The last two conjuncts tie the descriptor-level
default tags to the descriptor builders: an empty qs tag yields exactly
these tags under the default pipelines. -/
theorem claim_c1_scalar_roundtrip_distinct_keys
    (tn : String) (flds : List (String × GoType)) (xs : List GoValue)
    (hmatch : List.Forall₂ (fun (p : String × GoType) v => scalarOk p.2 v = true) flds xs)
    (hnodup : (flds.map Prod.fst).Nodup) :
    (marshalStruct (.mk tn (flds.map fun p => (defaultMarshalFieldTag p.1, p.2)) [])
        ⟨xs, []⟩
      = .ok ((flds.zip xs).map fun pv => (pv.1.1, [fmtScalar pv.2]))
    ∧ unmarshalStruct (.mk tn (flds.map fun p => (defaultUnmarshalFieldTag p.1, p.2)) [])
        ⟨flds.map (fun p => zeroValue p.2), []⟩
        ((flds.zip xs).map fun pv => (pv.1.1, [fmtScalar pv.2]))
        NewDefaultUnmarshalerOptions
      = (⟨xs, []⟩, none))
    ∧ (∀ nm ty, buildMarshalerFields NewDefaultMarshalOptionsM [⟨nm, "", ty, true⟩]
        = .ok [(defaultMarshalFieldTag (snakeCase nm), ty)])
    ∧ (∀ nm ty, buildUnmarshalerFields NewDefaultUnmarshalerOptions [⟨nm, "", ty, true⟩]
        = .ok [(defaultUnmarshalFieldTag (snakeCase nm), ty)]) := by
have hlen : flds.length = xs.length := List.Forall₂.length_eq hmatch
refine ⟨⟨?_, ?_⟩, ?_, ?_⟩
· rw [marshalStruct]
  rw [marshal_scalar_fieldList flds xs hmatch hnodup [] (fun _ _ => rfl)]
  simp only []
  rw [marshalEmbeddedList.eq_def]
  simp
· have hlook := forall2_lookup_built flds xs [] hlen hnodup (fun _ _ => rfl)
  simp only [List.nil_append] at hlook
  rw [unmarshalStruct]
  simp only [StructVal.fields, StructVal.embedded]
  rw [unmarshal_scalar_fieldList NewDefaultUnmarshalerOptions rfl tn flds xs _
    hmatch hlook]
  rw [unmarshalEmbeddedList]
· intro nm ty
  rfl
· intro nm ty
  rfl

/-- C1 counterexample: the claim fails as stated because the default
snake_case name transform can map two distinct exported Go field names to
the same encoded key. For `struct { AB string; Ab string }` (both fields
with empty qs tags, i.e. fully default options), both fields encode to key
`ab`; marshaling the value with AB = "a", Ab = "b" produces the single-entry
map `ab = ["b"]`, and unmarshaling that map into a fresh zero value yields
AB = "b", Ab = "b" ≠ the original value. -/
theorem claim_c1_counterexample :
    buildMarshalerFields NewDefaultMarshalOptionsM
      [⟨"AB", "", .tstr, true⟩, ⟨"Ab", "", .tstr, true⟩]
      = .ok [(defaultMarshalFieldTag "ab", .tstr), (defaultMarshalFieldTag "ab", .tstr)]
    ∧ buildUnmarshalerFields NewDefaultUnmarshalerOptions
      [⟨"AB", "", .tstr, true⟩, ⟨"Ab", "", .tstr, true⟩]
      = .ok [(defaultUnmarshalFieldTag "ab", .tstr), (defaultUnmarshalFieldTag "ab", .tstr)]
    ∧ marshalStruct
        (.mk "T" [(defaultMarshalFieldTag "ab", .tstr),
                  (defaultMarshalFieldTag "ab", .tstr)] [])
        ⟨[.vstr "a", .vstr "b"], []⟩
      = .ok [("ab", ["b"])]
    ∧ unmarshalStruct
        (.mk "T" [(defaultUnmarshalFieldTag "ab", .tstr),
                  (defaultUnmarshalFieldTag "ab", .tstr)] [])
        ⟨[.vstr "", .vstr ""], []⟩ [("ab", ["b"])] NewDefaultUnmarshalerOptions
      = (⟨[.vstr "b", .vstr "b"], []⟩, none)
    ∧ ¬ ((⟨[.vstr "b", .vstr "b"], []⟩ : StructVal) = ⟨[.vstr "a", .vstr "b"], []⟩) := by
refine ⟨by rfl, by rfl, ?_, ?_, ?_⟩
· rw [marshalStruct]
  rw [marshalFieldList]
  rw [show marshalValue .tstr (.vstr "a") = .ok ["a"] from by rw [marshalValue]]
  simp only [defaultMarshalFieldTag, reduceCtorEq, false_and, if_false, reduceIte,
    List.length_cons, ne_eq]
  rw [marshalFieldList]
  rw [show marshalValue .tstr (.vstr "b") = .ok ["b"] from by rw [marshalValue]]
  simp [marshalFieldList, marshalEmbeddedList, assocSet]
· have hstep : ∀ s : String, unmarshal .tstr (.vstr s) (some ["b"])
      (NewUnmarshalOptions NewDefaultUnmarshalerOptions
        (some (defaultUnmarshalFieldTag "ab"))) = (.vstr "b", none) := by
    intro s
    rw [unmarshal]
    simp [primitiveUnmarshal, NewUnmarshalOptions, NewDefaultUnmarshalerOptions,
      defaultSliceToString, unmarshalString]
  rw [unmarshalStruct]
  simp only [StructVal.fields, StructVal.embedded]
  rw [unmarshalFieldList]
  simp only [defaultUnmarshalFieldTag] at hstep ⊢
  rw [show assocLookup [("ab", ["b"])] "ab" = some ["b"] from rfl]
  simp only []
  rw [hstep ""]
  simp only []
  rw [unmarshalFieldList]
  rw [show assocLookup [("ab", ["b"])] "ab" = some ["b"] from rfl]
  simp only []
  rw [hstep ""]
  simp only []
  rw [unmarshalFieldList]
  rw [unmarshalEmbeddedList]
· intro h
  injection h with h1 h2
  injection h1 with h3 h4
  injection h3 with h5
  simp at h5

/-- Witness for the amended C1: a two-field struct (string and int64) with
distinct keys round-trips, including a zero-valued string field. -/
theorem claim_c1_witness :
    marshalStruct
      (.mk "T" [(defaultMarshalFieldTag "s", .tstr),
                (defaultMarshalFieldTag "n", .tint 64)] [])
      ⟨[.vstr "", .vint 64 (-7)], []⟩
      = .ok [("s", [""]), ("n", ["-7"])]
    ∧ unmarshalStruct
      (.mk "T" [(defaultUnmarshalFieldTag "s", .tstr),
                (defaultUnmarshalFieldTag "n", .tint 64)] [])
      ⟨[.vstr "", .vint 64 0], []⟩ [("s", [""]), ("n", ["-7"])]
      NewDefaultUnmarshalerOptions
      = (⟨[.vstr "", .vint 64 (-7)], []⟩, none) := by
have h := claim_c1_scalar_roundtrip_distinct_keys "T"
  [("s", .tstr), ("n", .tint 64)] [.vstr "", .vint 64 (-7)]
  (by
    refine List.Forall₂.cons ?_ (List.Forall₂.cons ?_ List.Forall₂.nil)
    · rfl
    · decide)
  (by decide)
exact ⟨h.1.1, h.1.2⟩

end qs
